import Mathlib

/-!
Verification of the DS-slot ROM access core (KEY1 cipher and key schedule,
Normal ROM device command state machine, file-backed contents with overlays,
and icon decoding) against its specification.

Byte buffers are modelled as functions `Nat → Nat` (byte at offset, values
< 256 where the source has `u8`), 32-bit words as `Nat` with explicit
`% 2^32` where the source wraps.
-/

namespace DsSlotRom

/-! ## Byte-level accessors (model of `utils::Bytes` `read_le` / `write_le` / `read_be`) -/

/-- Little-endian 16-bit read at byte offset `i`. -/
def readLe16 (b : Nat → Nat) (i : Nat) : Nat :=
  b i + b (i + 1) * 0x100

/-- Little-endian 32-bit read at byte offset `i`. -/
def readLe32 (b : Nat → Nat) (i : Nat) : Nat :=
  b i + b (i + 1) * 0x100 + b (i + 2) * 0x10000 + b (i + 3) * 0x1000000

/-- Little-endian 64-bit read at byte offset `i`. -/
def readLe64 (b : Nat → Nat) (i : Nat) : Nat :=
  b i + b (i + 1) * 0x100 + b (i + 2) * 0x10000 + b (i + 3) * 0x1000000 +
    b (i + 4) * 0x100000000 + b (i + 5) * 0x10000000000 +
    b (i + 6) * 0x1000000000000 + b (i + 7) * 0x100000000000000

/-- Big-endian 32-bit read at byte offset `i`. -/
def readBe32 (b : Nat → Nat) (i : Nat) : Nat :=
  b i * 0x1000000 + b (i + 1) * 0x10000 + b (i + 2) * 0x100 + b (i + 3)

/-- Big-endian 64-bit read at byte offset `i`. -/
def readBe64 (b : Nat → Nat) (i : Nat) : Nat :=
  b i * 0x100000000000000 + b (i + 1) * 0x1000000000000 + b (i + 2) * 0x10000000000 +
    b (i + 3) * 0x100000000 + b (i + 4) * 0x1000000 + b (i + 5) * 0x10000 +
    b (i + 6) * 0x100 + b (i + 7)

/-- Little-endian 32-bit write at byte offset `i`. -/
def writeLe32 (b : Nat → Nat) (i v : Nat) : Nat → Nat := fun j =>
  if j = i then v &&& 0xFF
  else if j = i + 1 then (v >>> 8) &&& 0xFF
  else if j = i + 2 then (v >>> 16) &&& 0xFF
  else if j = i + 3 then (v >>> 24) &&& 0xFF
  else b j

/-- Big-endian 32-bit write at byte offset `i`. -/
def writeBe32 (b : Nat → Nat) (i v : Nat) : Nat → Nat := fun j =>
  if j = i then (v >>> 24) &&& 0xFF
  else if j = i + 1 then (v >>> 16) &&& 0xFF
  else if j = i + 2 then (v >>> 8) &&& 0xFF
  else if j = i + 3 then v &&& 0xFF
  else b j

/-! ## KEY1 cipher (`key1.rs`)

The key buffer `[u32; 0x412]` is modelled as a function `Nat → Nat` over the
in-bounds indices `0..0x412`; the 3-word key code likewise over `0..3`. -/

/-- The S-box mixing function: the body of the round in `encrypt_64_bit` /
`decrypt_64_bit` that computes the new `x` before the xor with `y`
(`wrapping_add` is addition `% 2^32`). -/
def feistelF (kb : Nat → Nat) (z : Nat) : Nat :=
  ((kb (0x12 + (z >>> 24)) + kb (0x112 + ((z >>> 16) &&& 0xFF))) % 2 ^ 32 ^^^
      kb (0x212 + ((z >>> 8) &&& 0xFF))) + kb (0x312 + (z &&& 0xFF)) |>.mod (2 ^ 32)

/-- One loop iteration of `encrypt_64_bit` / `decrypt_64_bit`:
state is `(y, x)`, `i` is the P-word index. -/
def feistelRound (kb : Nat → Nat) (st : Nat × Nat) (i : Nat) : Nat × Nat :=
  let z := st.2 ^^^ kb i
  (z, feistelF kb z ^^^ st.1)

/-- `n` rounds with P-word indices `a, a+1, ..., a+n-1` (the `for i in 0..0x10`
loop of `encrypt_64_bit` is `encRounds kb 0 0x10`). -/
def encRounds (kb : Nat → Nat) (a n : Nat) (st : Nat × Nat) : Nat × Nat :=
  match n with
  | 0 => st
  | n + 1 => encRounds kb (a + 1) n (feistelRound kb st a)

/-- `n` rounds with P-word indices `a+n-1, a+n-2, ..., a` (the
`for i in (2..0x12).rev()` loop of `decrypt_64_bit` is `decRounds kb 2 0x10`). -/
def decRounds (kb : Nat → Nat) (a n : Nat) (st : Nat × Nat) : Nat × Nat :=
  match n with
  | 0 => st
  | n + 1 => feistelRound kb (decRounds kb (a + 1) n st) a

/-- `KeyBuffer::encrypt_64_bit` on the pair `[y, x]`. -/
def encrypt_64_bit (kb : Nat → Nat) (p : Nat × Nat) : Nat × Nat :=
  let st := encRounds kb 0 0x10 p
  (st.2 ^^^ kb 0x10, st.1 ^^^ kb 0x11)

/-- `KeyBuffer::decrypt_64_bit` on the pair `[y, x]`. -/
def decrypt_64_bit (kb : Nat → Nat) (p : Nat × Nat) : Nat × Nat :=
  let st := decRounds kb 2 0x10 p
  (st.2 ^^^ kb 1, st.1 ^^^ kb 0)

/-! ### The Feistel inversion, generalized over start index and round count -/

/-- Encryption generalized to `n` rounds starting at P-index `a`
(final whitening with `P[a+n]`, `P[a+n+1]`). -/
def encryptGen (kb : Nat → Nat) (a n : Nat) (st : Nat × Nat) : Nat × Nat :=
  let e := encRounds kb a n st
  (e.2 ^^^ kb (a + n), e.1 ^^^ kb (a + n + 1))

/-- Decryption generalized to `n` rounds over P-indices `a+n+1` down to `a+2`
(final whitening with `P[a+1]`, `P[a]`). -/
def decryptGen (kb : Nat → Nat) (a n : Nat) (st : Nat × Nat) : Nat × Nat :=
  let d := decRounds kb (a + 2) n st
  (d.2 ^^^ kb (a + 1), d.1 ^^^ kb a)


/-! ## KEY1 key schedule (`key1.rs`) -/

/-- `KeyBuffer<LEVEL_3>`: 0x412 32-bit words plus a 3-word key code.
The const `LEVEL_3` phantom is a type-level tag only and is dropped here. -/
structure KeyBuffer where
  key_buf : Nat → Nat
  key_code : Nat → Nat

/-- `u32::swap_bytes`. -/
def swapBytes32 (x : Nat) : Nat :=
  ((x &&& 0xFF) <<< 24) ||| ((x &&& 0xFF00) <<< 8) ||| ((x >>> 8) &&& 0xFF00) |||
    ((x >>> 24) &&& 0xFF)

/-- The `for i in (0..0x412).step_by(2)` loop at the end of `apply_key_code`:
`n` remaining pairs, writing at indices `i`, `i + 1`; each pair is the
ciphertext of the running scratch state under the partially updated buffer
(`key_buf[i] = scratch[1]`, `key_buf[i + 1] = scratch[0]`). -/
def scheduleLoop (n : Nat) (buf : Nat → Nat) (scratch : Nat × Nat) (i : Nat) : Nat → Nat :=
  match n with
  | 0 => buf
  | m + 1 =>
    let s := encrypt_64_bit buf scratch
    let buf2 : Nat → Nat := fun j => if j = i then s.2 else if j = i + 1 then s.1 else buf j
    scheduleLoop m buf2 s (i + 2)

/-- `KeyBuffer::apply_key_code::<MODULO>`. -/
def apply_key_code (MODULO : Nat) (kb : KeyBuffer) : KeyBuffer :=
  let s1 := encrypt_64_bit kb.key_buf (kb.key_code 1, kb.key_code 2)
  let kc1 : Nat → Nat := fun j => if j = 1 then s1.1 else if j = 2 then s1.2 else kb.key_code j
  let s2 := encrypt_64_bit kb.key_buf (kc1 0, kc1 1)
  let kc2 : Nat → Nat := fun j => if j = 0 then s2.1 else if j = 1 then s2.2 else kc1 j
  let buf1 : Nat → Nat := fun j =>
    if j < 0x12 then kb.key_buf j ^^^ swapBytes32 (kc2 (j % MODULO)) else kb.key_buf j
  { key_buf := scheduleLoop 0x209 buf1 (0, 0) 0, key_code := kc2 }

/-- `KeyBuffer::new_boxed::<MODULO>`: seed the 0x412 words from little-endian
reads of the ARM7 BIOS starting at offset 0x30, set the key code to
`[id, id >> 1, id << 1]`, and apply the key code twice. -/
def new_boxed (MODULO : Nat) (id_code : Nat) (arm7_bios : Nat → Nat) : KeyBuffer :=
  let kb0 : KeyBuffer :=
    { key_buf := fun i => readLe32 arm7_bios (0x30 + (i <<< 2)),
      key_code := fun j =>
        if j = 0 then id_code else if j = 1 then id_code >>> 1 else (id_code <<< 1) % 2 ^ 32 }
  apply_key_code MODULO (apply_key_code MODULO kb0)

/-- `KeyBuffer::<false>::level_3::<MODULO>`: shift the key code
(`kc[1] <<= 1`, `kc[2] >>= 1`, as `u32`) and apply one schedule step. -/
def level_3 (MODULO : Nat) (kb : KeyBuffer) : KeyBuffer :=
  apply_key_code MODULO
    { key_buf := kb.key_buf,
      key_code := fun j =>
        if j = 1 then (kb.key_code 1 <<< 1) % 2 ^ 32
        else if j = 2 then kb.key_code 2 >>> 1
        else kb.key_code j }

/-- `IsBounded kb`: every buffer word and key-code word fits in 32 bits. -/
def IsBounded (kb : KeyBuffer) : Prop :=
  (∀ j, kb.key_buf j < 2 ^ 32) ∧ (∀ j, kb.key_code j < 2 ^ 32)

/-- `IsZeroKb kb`: every buffer word and key-code word is zero (the key
schedule built from an all-zero BIOS with game code 0). -/
def IsZeroKb (kb : KeyBuffer) : Prop :=
  (∀ j, kb.key_buf j = 0) ∧ (∀ j, kb.key_code j = 0)

/-! ## Secure-area transforms of `Normal::setup` (`normal.rs`) -/

/-- The byte sequence `b"encryObj"` installed at offset 0 before encryption. -/
def encryObjByte (j : Nat) : Nat :=
  if j = 0 then 0x65 else if j = 1 then 0x6E else if j = 2 then 0x63 else if j = 3 then 0x72
  else if j = 4 then 0x79 else if j = 5 then 0x4F else if j = 6 then 0x62 else 0x6A

/-- Byte `m` (little-endian) of the 8-byte block holding the word pair `p`. -/
def pairByte (p : Nat × Nat) (m : Nat) : Nat :=
  if m < 4 then (p.1 >>> (8 * m)) &&& 0xFF else (p.2 >>> (8 * (m - 4))) &&& 0xFF

def cryptBlocksAux (f : Nat × Nat → Nat × Nat) (sa : Nat → Nat) (n i : Nat) : Nat → Nat :=
  match n with
  | 0 => sa
  | m + 1 =>
    let r := f (readLe32 sa i, readLe32 sa (i + 4))
    cryptBlocksAux f (writeLe32 (writeLe32 sa i r.1) (i + 4) r.2) m (i + 8)

/-- `for i in (0..0x800).step_by(8)`: apply the 64-bit cipher `f` to every
8-byte block of the secure area in place (`res[0]` at `i`, `res[1]` at `i+4`). -/
def cryptBlocks (f : Nat × Nat → Nat × Nat) (sa : Nat → Nat) : Nat → Nat :=
  cryptBlocksAux f sa 0x100 0

/-- The not-`direct_boot` arm of `Normal::setup` on a secure area whose first
8 bytes hold the blank magic: install `"encryObj"` at offset 0, encrypt every
8-byte block with the level-3 schedule, then encrypt bytes 0..8 with the
level-2 schedule. -/
def secure_area_encrypt (key_buf : KeyBuffer) (sa : Nat → Nat) : Nat → Nat :=
  let sa1 : Nat → Nat := fun j => if j < 8 then encryObjByte j else sa j
  let level_3_key_buf := level_3 2 key_buf
  let sa2 := cryptBlocks (encrypt_64_bit level_3_key_buf.key_buf) sa1
  let res := encrypt_64_bit key_buf.key_buf (readLe32 sa2 0, readLe32 sa2 4)
  writeLe32 (writeLe32 sa2 0 res.1) 4 res.2

/-- The `direct_boot` decryption arm of `Normal::setup`: decrypt bytes 0..8
with the level-2 schedule, then decrypt every 8-byte block with the level-3
schedule. -/
def secure_area_decrypt (key_buf : KeyBuffer) (sa : Nat → Nat) : Nat → Nat :=
  let res := decrypt_64_bit key_buf.key_buf (readLe32 sa 0, readLe32 sa 4)
  let sa1 := writeLe32 (writeLe32 sa 0 res.1) 4 res.2
  let level_3_key_buf := level_3 2 key_buf
  cryptBlocks (decrypt_64_bit level_3_key_buf.key_buf) sa1

/-! ## The `Normal` ROM device (`normal.rs`) -/

/-- Command-interpreter stage. -/
inductive Stage
  | Initial
  | Key1
  | Key2

/-- Abstract model of the `Box<dyn Contents>` held by `Normal`: `data` is the
byte source behind `read_slice` / `read_header`, `len` the reported length,
`secureArea` the overlay state behind `secure_area_mut` (`none` models a
failed materialization, in which case the accessor yields `None`). -/
structure Contents where
  len : Nat
  data : Nat → Nat
  secureArea : Option (Nat → Nat)

/-- The `Normal` ROM device (logger and savestate machinery omitted). -/
structure Normal where
  contents : Contents
  rom_mask : Nat
  chip_id : Nat
  key_buf : Option KeyBuffer
  stage : Stage

/-- Result of `setup`: `ok` / `fail` mirror `Ok(())` / `Err(())`, carrying the
mutated device; `panicked` models a failed `expect` unwinding. -/
inductive SetupOutcome
  | ok (d : Normal)
  | fail (d : Normal)
  | panicked

/-- The blank/plaintext secure-area magic (`0xE7FF_DEFF_E7FF_DEFF`). -/
def blankMagic : Nat := 0xE7FFDEFFE7FFDEFF

/-- `Normal::setup` (the condition under `if direct_boot` negated from
`is_homebrew` to the commercial range test). -/
def setup (d : Normal) (direct_boot : Bool) : SetupOutcome :=
  let secure_area_start := readLe32 d.contents.data 0x20
  if direct_boot then
    let d1 : Normal := { d with stage := Stage.Key2 }
    if ¬(0x4000 ≤ secure_area_start ∧ secure_area_start < 0x8000) then SetupOutcome.ok d1
    else
      match d1.contents.secureArea with
      | none => SetupOutcome.ok d1
      | some secure_area =>
        if readLe64 secure_area 0 ≠ blankMagic then
          match d1.key_buf with
          | none => SetupOutcome.fail d1
          | some key_buf =>
            SetupOutcome.ok { d1 with contents := { d1.contents with
              secureArea := some (secure_area_decrypt key_buf secure_area) } }
        else SetupOutcome.ok d1
  else
    match d.contents.secureArea with
    | none => SetupOutcome.ok d
    | some secure_area =>
      match d.key_buf with
      | none => SetupOutcome.panicked
      | some key_buf =>
        if readLe64 secure_area 0 = blankMagic then
          SetupOutcome.ok { d with contents := { d.contents with
            secureArea := some (secure_area_encrypt key_buf secure_area) } }
        else SetupOutcome.ok d

/-! ## `Normal::handle_rom_command` -/

/-- `output[..n].fill(v)` (and `make_zero` for `v = 0`). -/
def fillRange (out : Nat → Nat) (n v : Nat) : Nat → Nat :=
  fun j => if j < n then v else out j

/-- `for i in (0..out_len).step_by(4) { output.write_le(i, chip_id) }`. -/
def chipIdFill (chip_id : Nat) (out : Nat → Nat) (out_len i : Nat) : Nat → Nat :=
  if _h : i < out_len then chipIdFill chip_id (writeLe32 out i chip_id) out_len (i + 4)
  else out
termination_by out_len - i
decreasing_by omega

/-- `for start_i in (0..out_len).step_by(0x1000)` copying
`read_slice(start_addr, ..)` in up-to-0x1000-byte chunks (the `0x00` raw
command and the KEY1 `0x2` command). -/
def chunkedReadLoop (data : Nat → Nat) (start_addr : Nat) (out : Nat → Nat)
    (out_len start_i : Nat) : Nat → Nat :=
  if _h : start_i < out_len then
    let len := min 0x1000 (out_len - start_i)
    chunkedReadLoop data start_addr
      (fun j => if start_i ≤ j ∧ j < start_i + len then data (start_addr + (j - start_i)) else out j)
      out_len (start_i + len)
  else out
termination_by out_len - start_i
decreasing_by simp; omega

/-- The `0xB7` read loop: `len = min(page_end - addr, out_len - start_i)`
bytes from `addr`, then continue from `page_start`. `len = 0` (only possible
for `page_end ≤ addr`, which `handle_rom_command` never produces) would loop
forever in the source and is mapped to an early exit here. -/
def b7ReadLoop (data : Nat → Nat) (out : Nat → Nat)
    (page_start page_end out_len addr start_i : Nat) : Nat → Nat :=
  if _h : start_i < out_len then
    let len := min (page_end - addr) (out_len - start_i)
    if _hlen : len = 0 then out
    else
      b7ReadLoop data
        (fun j => if start_i ≤ j ∧ j < start_i + len then data (addr + (j - start_i)) else out j)
        page_start page_end out_len page_start (start_i + len)
  else out
termination_by out_len - start_i
decreasing_by simp; omega

/-- Result of `handle_rom_command`: the mutated device and output buffer, or a
panic from the `expect` on a missing key buffer. -/
inductive HrcOutcome
  | ok (d : Normal) (out : Nat → Nat)
  | panicked

/-- `Normal::handle_rom_command` (`cmd` is the 8-byte command, `output` the
output buffer, `output_len` the requested length; match arms with their
big-endian guards are rendered as an if-chain falling through to the
unknown-command filler). -/
def handle_rom_command (d : Normal) (cmd : Nat → Nat) (output : Nat → Nat)
    (output_len : Nat) : HrcOutcome :=
  match d.stage with
  | Stage.Initial =>
    if cmd 0 = 0x9F ∧ readBe64 cmd 0 &&& 0x00FFFFFFFFFFFFFF = 0 then
      HrcOutcome.ok d (fillRange output output_len 0xFF)
    else if cmd 0 = 0x00 ∧ readBe64 cmd 0 &&& 0x00FFFFFFFFFFFFFF = 0 then
      HrcOutcome.ok d (chunkedReadLoop d.contents.data 0 output output_len 0)
    else if cmd 0 = 0x90 ∧ readBe64 cmd 0 &&& 0x00FFFFFFFFFFFFFF = 0 then
      HrcOutcome.ok d (chipIdFill d.chip_id output output_len 0)
    else if cmd 0 = 0x3C then
      HrcOutcome.ok { d with stage := Stage.Key1 } (fillRange output output_len 0xFF)
    else
      HrcOutcome.ok d (fillRange output output_len 0xFF)
  | Stage.Key1 =>
    match d.key_buf with
    | none => HrcOutcome.panicked
    | some key_buf =>
      let res := decrypt_64_bit key_buf.key_buf (readBe32 cmd 4, readBe32 cmd 0)
      let cmd2 := writeBe32 (writeBe32 cmd 4 res.1) 0 res.2
      if cmd2 0 >>> 4 = 0x4 then
        HrcOutcome.ok d (fillRange output output_len 0xFF)
      else if cmd2 0 >>> 4 = 0x1 then
        HrcOutcome.ok d (chipIdFill d.chip_id output output_len 0)
      else if cmd2 0 >>> 4 = 0x2 then
        let start_addr := 0x4000 ||| ((cmd2 2 &&& 0x30) <<< 8)
        HrcOutcome.ok d (chunkedReadLoop d.contents.data start_addr output output_len 0)
      else if cmd2 0 >>> 4 = 0xA then
        HrcOutcome.ok { d with stage := Stage.Key2 } (fillRange output output_len 0x00)
      else
        HrcOutcome.ok d (fillRange output output_len 0x00)
  | Stage.Key2 =>
    if cmd 0 = 0xB7 then
      let addr0 := readBe32 cmd 1 &&& d.rom_mask
      let addr := if addr0 < 0x8000 then 0x8000 ||| (addr0 &&& 0x1FF) else addr0
      let page_start := addr / 0x1000 * 0x1000
      let page_end := page_start + 0x1000
      HrcOutcome.ok d (b7ReadLoop d.contents.data output page_start page_end output_len addr 0)
    else if cmd 0 = 0xB8 ∧ readBe64 cmd 0 &&& 0x00FFFFFFFFFFFFFF = 0 then
      HrcOutcome.ok d (chipIdFill d.chip_id output output_len 0)
    else
      HrcOutcome.ok d (fillRange output output_len 0x00)

/-- The chip-ID computation in `Normal::new`
(`0xC2 | match len as u32 { .. }`, with no shift on the size class value;
`len as u32` truncates). -/
def chipIdOf (len : Nat) : Nat :=
  let len32 := len % 2 ^ 32
  0xC2 |||
    (if len32 ≤ 0xFFFFF then 0
     else if len32 ≤ 0xFFFFFFF then (len32 >>> 20) - 1
     else 0x100 - (len32 >>> 28))

/-! ## `File` contents with overlays (`ds_slot_rom.rs`) -/

/-- Two's-complement wrapping subtraction on `usize` (release build
semantics of `a - b`). -/
def usizeSub (a b : Nat) : Nat := (a + (2 ^ 64 - b % 2 ^ 64)) % 2 ^ 64

/-- The `File` backend: raw file bytes and length, plus the two lazily
materialized overlay windows (`none`: not yet attempted, `some none`:
attempted and failed, `some (some bytes)`: present). -/
structure FileContents where
  file : Nat → Nat
  len : Nat
  secure_area_start : Nat
  secure_area_end : Nat
  secure_area : Option (Option (Nat → Nat))
  dldi_area_start : Nat
  dldi_area_end : Nat
  dldi_area : Option (Option (Nat → Nat))

/-- The `apply_overlay!` macro body in `File::read_slice`: copy
`bytes[src..src+len]` over `output[dst..dst+len]` when the read window
intersects the overlay window. `bytes_len` is the overlay buffer's length
(0x800 for the secure area); Rust's slice indexing panics — `none` — when a
computed range exceeds the buffer. -/
def applyOverlay (bytes_len : Nat) (overlay : Option (Option (Nat → Nat)))
    (ostart oend addr out_len : Nat) (out : Nat → Nat) : Option (Nat → Nat) :=
  match overlay with
  | some (some bytes) =>
    if addr < oend ∧ addr + out_len > ostart then
      let start_src_i := if addr < ostart then 0 else addr - ostart
      let start_dst_i := if addr < ostart then ostart - addr else 0
      let len := min out_len (usizeSub 0x800 start_src_i)
      if start_dst_i + len ≤ out_len ∧ start_src_i + len ≤ bytes_len then
        some (fun j => if start_dst_i ≤ j ∧ j < start_dst_i + len then
          bytes (start_src_i + (j - start_dst_i)) else out j)
      else none
    else some out
  | _ => some out

/-- `File::read_slice`: seek to `addr`, read
`read_len = min(out_len, len - addr)` bytes (usize subtraction wraps), zero
the tail, then composite the secure-area and DLDI overlays. A failing
`read_exact` hits the `expect` — modelled as `none`. -/
def read_slice (f : FileContents) (addr : Nat) (out : Nat → Nat) (out_len : Nat) :
    Option (Nat → Nat) :=
  let read_len := min out_len (usizeSub f.len addr)
  if addr + read_len ≤ f.len then
    let base : Nat → Nat := fun j =>
      if j < out_len then (if j < read_len then f.file (addr + j) else 0) else out j
    match applyOverlay 0x800 f.secure_area f.secure_area_start f.secure_area_end
        addr out_len base with
    | none => none
    | some o1 =>
      applyOverlay (f.dldi_area_end - f.dldi_area_start) f.dldi_area f.dldi_area_start
        f.dldi_area_end addr out_len o1
  else none

/-! ## Icon decoding (`icon.rs`) -/

/-- The BGR555 → RGBA8 expansion for palette entries 1..15 in
`decode_to_rgba8` (via the 6-bit intermediate `rgb6`). -/
def paletteColor (raw_color : Nat) : Nat :=
  let rgb6 := ((raw_color <<< 1) &&& 0x3E) ||| ((raw_color <<< 4) &&& 0x3E00) |||
    ((raw_color <<< 7) &&& 0x3E0000)
  0xFF000000 ||| (rgb6 <<< 2) ||| ((rgb6 >>> 4) &&& 0x030303)

/-- The palette of `decode_to_rgba8`: entry 0 stays 0, entries `1..` are read
little-endian from `icon_data[0x200 | i << 1]` and expanded. -/
def iconPalette (icon_data : Nat → Nat) (i : Nat) : Nat :=
  if i = 0 then 0 else paletteColor (readLe16 icon_data (0x200 ||| (i <<< 1)))

/-- The inner `for x_in_tile in 0..8` loop: 8 nibble-indexed palette lookups
written to the linear destination row (`x_in_tile` is the loop variable, `n`
the remaining iteration count). -/
def writeTileRowAux (palette : Nat → Nat) (src_line dst : Nat) (pixels : Nat → Nat)
    (x_in_tile n : Nat) : Nat → Nat :=
  match n with
  | 0 => pixels
  | m + 1 =>
    writeTileRowAux palette src_line dst
      (fun j => if j = (dst ||| x_in_tile) then palette ((src_line >>> (x_in_tile <<< 2)) &&& 0xF)
        else pixels j)
      (x_in_tile + 1) m

/-- The outer `for src_tile_line_base in (0..0x200).step_by(4)` detiling loop
of `decode_to_rgba8` (`src_tile_line_base` is the loop variable, `n` the
remaining iteration count). -/
def detileAux (palette : Nat → Nat) (icon_data : Nat → Nat) (pixels : Nat → Nat)
    (src_tile_line_base n : Nat) : Nat → Nat :=
  match n with
  | 0 => pixels
  | m + 1 =>
    let src_line := readLe32 icon_data src_tile_line_base
    let tile_y := src_tile_line_base >>> 7
    let tile_x := (src_tile_line_base >>> 5) &&& 3
    let y_in_tile := (src_tile_line_base >>> 2) &&& 7
    let dst_tile_line_base := (tile_y <<< 8) ||| (y_in_tile <<< 5) ||| (tile_x <<< 3)
    detileAux palette icon_data
      (writeTileRowAux palette src_line dst_tile_line_base pixels 0 8)
      (src_tile_line_base + 4) m

/-- `icon::decode_to_rgba8`: `None` when the icon resource does not fit,
otherwise the 32×32 pixel buffer (pixels indexed `0..1024`). `icon_data` is
the 0x220-byte buffer filled by `read_slice(icon_title_offset + 0x20, ..)`;
the outer loop runs 0x200 / 4 = 0x80 times. -/
def decode_to_rgba8 (icon_title_offset : Nat) (rom_contents : Contents) :
    Option (Nat → Nat) :=
  if icon_title_offset + 0x240 > rom_contents.len then none
  else
    let icon_data : Nat → Nat := fun j => rom_contents.data (icon_title_offset + 0x20 + j)
    some (detileAux (iconPalette icon_data) icon_data (fun _ => 0) 0 0x80)

/-! ## Concrete fixtures used by witnesses and counterexamples -/

/-- An all-zero ARM7 BIOS image. -/
def zeroBios : Nat → Nat := fun _ => 0

/-- The key schedule built from the all-zero BIOS with game code 0
(`new_boxed::<2>(0, zeroBios)`); its buffer and key code are all zero. -/
def zeroKeyBuffer : KeyBuffer := new_boxed 2 0 zeroBios

/-- A secure area starting with the blank magic `FF DE FF E7 FF DE FF E7`,
zero elsewhere. -/
def magicSA : Nat → Nat := fun j =>
  if j < 8 then (if j % 2 = 0 then 0xFF else if j % 4 = 1 then 0xDE else 0xE7) else 0

/-- Header bytes declaring `secure_area_start = 0x4000` (commercial). -/
def commercialHeader : Nat → Nat := fun j => if j = 0x21 then 0x40 else 0

/-- Commercial device holding the zero key schedule and a blank-magic secure
area. -/
def devC2 : Normal :=
  { contents := { len := 0x100000, data := commercialHeader, secureArea := some magicSA },
    rom_mask := 0xFFFFF, chip_id := 0xC2, key_buf := some zeroKeyBuffer,
    stage := Stage.Initial }

/-- Byte `j` of the secure area after `setup(false)` then `setup(true)`,
when both calls succeed. -/
def roundtripSecureByte (d : Normal) (j : Nat) : Option Nat :=
  match setup d false with
  | SetupOutcome.ok d1 =>
    match setup d1 true with
    | SetupOutcome.ok d2 =>
      match d2.contents.secureArea with
      | some sa => some (sa j)
      | none => none
    | _ => none
  | _ => none

/-- Commercial device with a blank-magic secure area and no key schedule. -/
def devC3 : Normal :=
  { contents := { len := 0x100000, data := commercialHeader, secureArea := some magicSA },
    rom_mask := 0xFFFFF, chip_id := 0xC2, key_buf := none, stage := Stage.Initial }

/-- Commercial device whose secure area cannot be materialized. -/
def devC3b : Normal :=
  { contents := { len := 0x100000, data := commercialHeader, secureArea := none },
    rom_mask := 0xFFFFF, chip_id := 0xC2, key_buf := none, stage := Stage.Initial }

/-- KEY2-stage device over an identity-patterned image. -/
def devC4 : Normal :=
  { contents := { len := 0x100000, data := fun a => a % 256, secureArea := none },
    rom_mask := 0xFFFFF, chip_id := 0xC2, key_buf := none, stage := Stage.Key2 }

/-- The KEY2 command `B7 00 00 40 00 00 00 00`. -/
def cmdB7 : Nat → Nat := fun j => if j = 0 then 0xB7 else if j = 3 then 0x40 else 0

/-- The 0xB7 response as the claim describes it: the masked address, rewritten
to `0x8000 | (addr & 0x1FF)` when below 0x8000; bytes come from ROM without
crossing the enclosing 0x1000-byte page, wrapping to the page start; exactly
`out_len` bytes are delivered, the rest of the buffer is untouched. -/
def claimB7Output (data : Nat → Nat) (masked_addr : Nat) (out : Nat → Nat)
    (out_len : Nat) : Nat → Nat :=
  let addr := if masked_addr < 0x8000 then 0x8000 ||| (masked_addr &&& 0x1FF) else masked_addr
  let page_start := addr / 0x1000 * 0x1000
  let first := page_start + 0x1000 - addr
  fun j =>
    if j < out_len then
      data (if j < first then addr + j else page_start + (j - first) % 0x1000)
    else out j

/-- Commercial device with a non-magic secure area and no key schedule
(hits the `setup(true)` failure path). -/
def devC9 : Normal :=
  { contents := { len := 0x100000, data := commercialHeader, secureArea := some (fun _ => 0) },
    rom_mask := 0xFFFFF, chip_id := 0xC2, key_buf := none, stage := Stage.Initial }

/-- Device without a key schedule, in KEY1 stage, with a materializable
secure area. -/
def devC10 : Normal :=
  { contents := { len := 0x100000, data := commercialHeader, secureArea := some (fun _ => 0) },
    rom_mask := 0xFFFFF, chip_id := 0xC2, key_buf := none, stage := Stage.Key1 }

/-- File contents of raw length 5 (padded length 8), no overlays. -/
def fileC5 : FileContents :=
  { file := fun _ => 0, len := 5, secure_area_start := 0, secure_area_end := 0,
    secure_area := none, dldi_area_start := 0, dldi_area_end := 0, dldi_area := none }

/-- File contents with a materialized secure-area overlay at
`[0x4000, 0x4800)`. -/
def fileC6 : FileContents :=
  { file := fun _ => 1, len := 0x10000, secure_area_start := 0x4000,
    secure_area_end := 0x4800, secure_area := some (some (fun _ => 2)),
    dldi_area_start := 0, dldi_area_end := 0, dldi_area := none }

/-- The palette expansion exactly as the claim words it:
`c8 = (c5 << 3) | (c5 >> 2)` per channel, packed
`0xFF << 24 | R | G << 8 | B << 16`. -/
def claimPaletteColor (raw_color : Nat) : Nat :=
  let r5 := raw_color &&& 0x1F
  let g5 := (raw_color >>> 5) &&& 0x1F
  let b5 := (raw_color >>> 10) &&& 0x1F
  0xFF000000 ||| ((r5 <<< 3) ||| (r5 >>> 2)) ||| (((g5 <<< 3) ||| (g5 >>> 2)) <<< 8) |||
    (((b5 <<< 3) ||| (b5 >>> 2)) <<< 16)

/-- The palette expansion the code actually performs, channel-wise:
`c8 = (c5 << 3) | (c5 >> 3)` (6-bit intermediate expansion). -/
def codePaletteColor (raw_color : Nat) : Nat :=
  let r5 := raw_color &&& 0x1F
  let g5 := (raw_color >>> 5) &&& 0x1F
  let b5 := (raw_color >>> 10) &&& 0x1F
  0xFF000000 ||| ((r5 <<< 3) ||| (r5 >>> 3)) ||| (((g5 <<< 3) ||| (g5 >>> 3)) <<< 8) |||
    (((b5 <<< 3) ||| (b5 >>> 3)) <<< 16)

/-- Contents whose icon resource sets pixel (0,0) to palette index 1 and
palette entry 1 to the raw BGR555 value 7 (red channel 7). -/
def iconContents : Contents :=
  { len := 0x240, data := fun j => if j = 0x20 then 1 else if j = 0x222 then 7 else 0,
    secureArea := none }

/-! ### The Feistel inversion theorems -/

theorem encryptGen_succ (kb : Nat → Nat) (a n : Nat) (st : Nat × Nat) :
    encryptGen kb a (n + 1) st = encryptGen kb (a + 1) n (feistelRound kb st a) := by
  simp only [encryptGen, encRounds]
  rw [show a + (n + 1) = a + 1 + n from by omega]

theorem decryptGen_succ (kb : Nat → Nat) (a n : Nat) (st : Nat × Nat) :
    decryptGen kb a (n + 1) st =
      ((feistelRound kb (decRounds kb (a + 3) n st) (a + 2)).2 ^^^ kb (a + 1),
       (feistelRound kb (decRounds kb (a + 3) n st) (a + 2)).1 ^^^ kb a) := by
  simp only [decryptGen, decRounds]

theorem decryptGen_encryptGen (kb : Nat → Nat) :
    ∀ (n a : Nat) (st : Nat × Nat), decryptGen kb a n (encryptGen kb a n st) = st := by
  intro n
  induction n with
  | zero =>
    intro a st
    simp [encryptGen, decryptGen, encRounds, decRounds, Nat.xor_cancel_right]
  | succ n ih =>
    intro a st
    obtain ⟨s1, s2⟩ := st
    rw [encryptGen_succ, decryptGen_succ]
    have hih := ih (a + 1) (feistelRound kb (s1, s2) a)
    simp only [decryptGen] at hih
    rw [show a + 1 + 2 = a + 3 from by omega, show a + 1 + 1 = a + 2 from by omega] at hih
    have h1 := congrArg Prod.fst hih
    have h2 := congrArg Prod.snd hih
    simp only [feistelRound] at h1 h2 ⊢
    rw [h1, Nat.xor_assoc, h2, Nat.xor_cancel_left, Nat.xor_cancel_right]

theorem encryptGen_decryptGen (kb : Nat → Nat) :
    ∀ (n a : Nat) (st : Nat × Nat), encryptGen kb a n (decryptGen kb a n st) = st := by
  intro n
  induction n with
  | zero =>
    intro a st
    simp [encryptGen, decryptGen, encRounds, decRounds, Nat.xor_cancel_right]
  | succ n ih =>
    intro a st
    rw [encryptGen_succ]
    have hkey : feistelRound kb (decryptGen kb a (n + 1) st) a = decryptGen kb (a + 1) n st := by
      rw [decryptGen_succ]
      simp only [feistelRound, decryptGen]
      rw [show a + 1 + 2 = a + 3 from by omega, show a + 1 + 1 = a + 2 from by omega]
      rw [Nat.xor_cancel_right, Nat.xor_assoc, Nat.xor_cancel_left]
    rw [hkey, ih]

theorem encrypt_eq_gen (kb : Nat → Nat) (p : Nat × Nat) :
    encrypt_64_bit kb p = encryptGen kb 0 0x10 p := rfl

theorem decrypt_eq_gen (kb : Nat → Nat) (p : Nat × Nat) :
    decrypt_64_bit kb p = decryptGen kb 0 0x10 p := rfl

/-- Round-trip of the 64-bit KEY1 cipher, for an arbitrary key buffer. -/
theorem decrypt_encrypt_64 (kb : Nat → Nat) (p : Nat × Nat) :
    decrypt_64_bit kb (encrypt_64_bit kb p) = p := by
  rw [encrypt_eq_gen, decrypt_eq_gen]; exact decryptGen_encryptGen kb 0x10 0 p

/-- Round-trip of the 64-bit KEY1 cipher, other direction. -/
theorem encrypt_decrypt_64 (kb : Nat → Nat) (p : Nat × Nat) :
    encrypt_64_bit kb (decrypt_64_bit kb p) = p := by
  rw [encrypt_eq_gen, decrypt_eq_gen]; exact encryptGen_decryptGen kb 0x10 0 p

/-! ### 32-bit boundedness of the schedule -/

theorem feistelF_lt (kb : Nat → Nat) (z : Nat) : feistelF kb z < 2 ^ 32 := by
  unfold feistelF
  exact Nat.mod_lt _ (by norm_num)

theorem swapBytes32_lt (x : Nat) : swapBytes32 x < 2 ^ 32 := by
  unfold swapBytes32
  have h1 : (x &&& 0xFF) <<< 24 < 2 ^ 32 := by
    rw [Nat.shiftLeft_eq]
    have : x &&& 0xFF ≤ 0xFF := Nat.and_le_right
    calc (x &&& 0xFF) * 2 ^ 24 ≤ 0xFF * 2 ^ 24 := Nat.mul_le_mul_right _ this
      _ < 2 ^ 32 := by norm_num
  have h2 : (x &&& 0xFF00) <<< 8 < 2 ^ 32 := by
    rw [Nat.shiftLeft_eq]
    have : x &&& 0xFF00 ≤ 0xFF00 := Nat.and_le_right
    calc (x &&& 0xFF00) * 2 ^ 8 ≤ 0xFF00 * 2 ^ 8 := Nat.mul_le_mul_right _ this
      _ < 2 ^ 32 := by norm_num
  have h3 : (x >>> 8) &&& 0xFF00 < 2 ^ 32 :=
    Nat.lt_of_le_of_lt Nat.and_le_right (by norm_num)
  have h4 : (x >>> 24) &&& 0xFF < 2 ^ 32 :=
    Nat.lt_of_le_of_lt Nat.and_le_right (by norm_num)
  exact Nat.or_lt_two_pow (Nat.or_lt_two_pow (Nat.or_lt_two_pow h1 h2) h3) h4

theorem encRounds_lt (kb : Nat → Nat) (hkb : ∀ j, kb j < 2 ^ 32) :
    ∀ (n a : Nat) (st : Nat × Nat), st.1 < 2 ^ 32 → st.2 < 2 ^ 32 →
      (encRounds kb a n st).1 < 2 ^ 32 ∧ (encRounds kb a n st).2 < 2 ^ 32 := by
  intro n
  induction n with
  | zero => intro a st h1 h2; exact ⟨h1, h2⟩
  | succ n ih =>
    intro a st h1 h2
    refine ih (a + 1) (feistelRound kb st a) ?_ ?_
    · exact Nat.xor_lt_two_pow h2 (hkb a)
    · exact Nat.xor_lt_two_pow (feistelF_lt kb _) h1

theorem encrypt_64_bit_lt (kb : Nat → Nat) (hkb : ∀ j, kb j < 2 ^ 32)
    (y x : Nat) (h1 : y < 2 ^ 32) (h2 : x < 2 ^ 32) :
    (encrypt_64_bit kb (y, x)).1 < 2 ^ 32 ∧ (encrypt_64_bit kb (y, x)).2 < 2 ^ 32 := by
  have h := encRounds_lt kb hkb 0x10 0 (y, x) h1 h2
  exact ⟨Nat.xor_lt_two_pow h.2 (hkb 0x10), Nat.xor_lt_two_pow h.1 (hkb 0x11)⟩

theorem shiftRight_lt_of_lt {x n b : Nat} (h : x < b) : x >>> n < b :=
  Nat.lt_of_le_of_lt (Nat.shiftRight_eq_div_pow x n ▸ Nat.div_le_self x (2 ^ n)) h

theorem scheduleLoop_lt :
    ∀ (n : Nat) (buf : Nat → Nat) (scratch : Nat × Nat) (i : Nat),
      (∀ j, buf j < 2 ^ 32) → scratch.1 < 2 ^ 32 → scratch.2 < 2 ^ 32 →
      ∀ j, scheduleLoop n buf scratch i j < 2 ^ 32 := by
  intro n
  induction n with
  | zero => intro buf scratch i hbuf _ _ j; exact hbuf j
  | succ n ih =>
    intro buf scratch i hbuf hs1 hs2 j
    simp only [scheduleLoop]
    obtain ⟨sy, sx⟩ := scratch
    have he := encrypt_64_bit_lt buf hbuf sy sx hs1 hs2
    refine ih _ _ _ ?_ he.1 he.2 j
    intro j'
    dsimp only
    split
    · exact he.2
    · split
      · exact he.1
      · exact hbuf j'


theorem apply_key_code_bounded (MODULO : Nat) (kb : KeyBuffer) (h : IsBounded kb) :
    IsBounded (apply_key_code MODULO kb) := by
  obtain ⟨hbuf, hkc⟩ := h
  have hs1 := encrypt_64_bit_lt kb.key_buf hbuf (kb.key_code 1) (kb.key_code 2) (hkc 1) (hkc 2)
  constructor
  · intro j
    simp only [apply_key_code]
    apply scheduleLoop_lt
    · intro j'
      dsimp only
      split
      · exact Nat.xor_lt_two_pow (hbuf j') (swapBytes32_lt _)
      · exact hbuf j'
    · norm_num
    · norm_num
  · intro j
    simp only [apply_key_code]
    norm_num
    have hs2 := encrypt_64_bit_lt kb.key_buf hbuf (kb.key_code 0)
      (encrypt_64_bit kb.key_buf (kb.key_code 1, kb.key_code 2)).1 (hkc 0) hs1.1
    split
    · exact hs2.1
    · split
      · exact hs2.2
      · split
        · exact hs1.2
        · exact hkc j

theorem level_3_bounded (MODULO : Nat) (kb : KeyBuffer) (h : IsBounded kb) :
    IsBounded (level_3 MODULO kb) := by
  apply apply_key_code_bounded
  obtain ⟨hbuf, hkc⟩ := h
  refine ⟨hbuf, ?_⟩
  intro j
  dsimp only
  split
  · exact Nat.mod_lt _ (by norm_num)
  · split
    · exact shiftRight_lt_of_lt (hkc 2)
    · exact hkc j

theorem new_boxed_bounded (MODULO id_code : Nat) (arm7_bios : Nat → Nat)
    (hbios : ∀ j, arm7_bios j < 256) (hid : id_code < 2 ^ 32) :
    IsBounded (new_boxed MODULO id_code arm7_bios) := by
  apply apply_key_code_bounded
  apply apply_key_code_bounded
  constructor
  · intro j
    dsimp only [readLe32]
    have h0 := hbios (0x30 + (j <<< 2))
    have h1 := hbios (0x30 + (j <<< 2) + 1)
    have h2 := hbios (0x30 + (j <<< 2) + 2)
    have h3 := hbios (0x30 + (j <<< 2) + 3)
    omega
  · intro j
    dsimp only
    split
    · exact hid
    · split
      · exact shiftRight_lt_of_lt hid
      · exact Nat.mod_lt _ (by norm_num)

/-! ### Byte-level lemmas -/

theorem and_255_eq_mod (x : Nat) : x &&& 0xFF = x % 256 := by
  have h : (0xFF : Nat) = 2 ^ 8 - 1 := by norm_num
  rw [h, Nat.and_pow_two_sub_one_eq_mod]

theorem shr_eq_div (x n : Nat) : x >>> n = x / 2 ^ n := Nat.shiftRight_eq_div_pow x n

theorem readLe32_lt (b : Nat → Nat) (i : Nat) (h0 : b i < 256) (h1 : b (i + 1) < 256)
    (h2 : b (i + 2) < 256) (h3 : b (i + 3) < 256) : readLe32 b i < 2 ^ 32 := by
  simp only [readLe32]
  omega

theorem writeLe32_at0 (b : Nat → Nat) (i v : Nat) : writeLe32 b i v i = v &&& 0xFF := by
  simp [writeLe32]

theorem writeLe32_at1 (b : Nat → Nat) (i v : Nat) :
    writeLe32 b i v (i + 1) = (v >>> 8) &&& 0xFF := by
  simp only [writeLe32]
  rw [if_neg (by omega)]
  simp

theorem writeLe32_at2 (b : Nat → Nat) (i v : Nat) :
    writeLe32 b i v (i + 2) = (v >>> 16) &&& 0xFF := by
  simp only [writeLe32]
  rw [if_neg (by omega), if_neg (by omega)]
  simp

theorem writeLe32_at3 (b : Nat → Nat) (i v : Nat) :
    writeLe32 b i v (i + 3) = (v >>> 24) &&& 0xFF := by
  simp only [writeLe32]
  rw [if_neg (by omega), if_neg (by omega), if_neg (by omega)]
  simp

theorem writeLe32_other (b : Nat → Nat) (i v j : Nat) (h : j < i ∨ i + 4 ≤ j) :
    writeLe32 b i v j = b j := by
  simp only [writeLe32]
  rw [if_neg (by omega), if_neg (by omega), if_neg (by omega), if_neg (by omega)]

theorem readLe32_writeLe32 (b : Nat → Nat) (i v : Nat) (hv : v < 2 ^ 32) :
    readLe32 (writeLe32 b i v) i = v := by
  simp only [readLe32, writeLe32_at0, writeLe32_at1, writeLe32_at2, writeLe32_at3]
  rw [and_255_eq_mod, and_255_eq_mod, and_255_eq_mod, and_255_eq_mod,
    shr_eq_div, shr_eq_div, shr_eq_div]
  have e8 : (2 : Nat) ^ 8 = 256 := by norm_num
  have e16 : (2 : Nat) ^ 16 = 65536 := by norm_num
  have e24 : (2 : Nat) ^ 24 = 16777216 := by norm_num
  rw [e8, e16, e24]
  omega

theorem pairByte_lt (p : Nat × Nat) (m : Nat) : pairByte p m < 256 := by
  unfold pairByte
  split <;> (rw [and_255_eq_mod]; exact Nat.mod_lt _ (by norm_num))

/-- Writing the block pair `r` at offsets `i`, `i + 4` makes byte `i + t`
equal `pairByte r t`. -/
theorem write_pair_byte (sa : Nat → Nat) (i : Nat) (r : Nat × Nat) :
    ∀ t, t < 8 → writeLe32 (writeLe32 sa i r.1) (i + 4) r.2 (i + t) = pairByte r t := by
  intro t ht
  have hc : t = 0 ∨ t = 1 ∨ t = 2 ∨ t = 3 ∨ t = 4 ∨ t = 5 ∨ t = 6 ∨ t = 7 := by omega
  rcases hc with rfl | rfl | rfl | rfl | rfl | rfl | rfl | rfl
  · rw [writeLe32_other _ _ _ _ (by omega), show i + 0 = i from by omega, writeLe32_at0]
    simp [pairByte]
  · rw [writeLe32_other _ _ _ _ (by omega), writeLe32_at1]
    simp [pairByte]
  · rw [writeLe32_other _ _ _ _ (by omega), writeLe32_at2]
    simp [pairByte]
  · rw [writeLe32_other _ _ _ _ (by omega), writeLe32_at3]
    simp [pairByte]
  · rw [writeLe32_at0]
    simp [pairByte]
  · rw [show i + 5 = i + 4 + 1 from by omega, writeLe32_at1]
    simp [pairByte]
  · rw [show i + 6 = i + 4 + 2 from by omega, writeLe32_at2]
    simp [pairByte]
  · rw [show i + 7 = i + 4 + 3 from by omega, writeLe32_at3]
    simp [pairByte]

theorem readLe32_eq_of (g h : Nat → Nat) (x : Nat)
    (he : ∀ t, t < 4 → g (x + t) = h (x + t)) : readLe32 g x = readLe32 h x := by
  have e0 : g x = h x := by simpa using he 0 (by omega)
  have e1 := he 1 (by omega)
  have e2 := he 2 (by omega)
  have e3 := he 3 (by omega)
  simp only [readLe32, e0, e1, e2, e3]

/-- Reading a 32-bit word out of a block of `pairByte p` bytes recovers the
word. -/
theorem readLe32_pairBytes1 (g : Nat → Nat) (x : Nat) (p : Nat × Nat)
    (hg : ∀ t, t < 8 → g (x + t) = pairByte p t) (h1 : p.1 < 2 ^ 32) :
    readLe32 g x = p.1 := by
  have e0 : g x = p.1 &&& 0xFF := by
    have := hg 0 (by omega)
    simpa [pairByte] using this
  have e1 : g (x + 1) = (p.1 >>> 8) &&& 0xFF := by
    have := hg 1 (by omega)
    simpa [pairByte] using this
  have e2 : g (x + 2) = (p.1 >>> 16) &&& 0xFF := by
    have := hg 2 (by omega)
    simpa [pairByte] using this
  have e3 : g (x + 3) = (p.1 >>> 24) &&& 0xFF := by
    have := hg 3 (by omega)
    simpa [pairByte] using this
  simp only [readLe32, e0, e1, e2, e3]
  rw [and_255_eq_mod, and_255_eq_mod, and_255_eq_mod, and_255_eq_mod,
    shr_eq_div, shr_eq_div, shr_eq_div]
  have e8 : (2 : Nat) ^ 8 = 256 := by norm_num
  have e16 : (2 : Nat) ^ 16 = 65536 := by norm_num
  have e24 : (2 : Nat) ^ 24 = 16777216 := by norm_num
  rw [e8, e16, e24]
  omega

theorem readLe32_pairBytes2 (g : Nat → Nat) (x : Nat) (p : Nat × Nat)
    (hg : ∀ t, t < 8 → g (x + t) = pairByte p t) (h2 : p.2 < 2 ^ 32) :
    readLe32 g (x + 4) = p.2 := by
  have e0 : g (x + 4) = p.2 &&& 0xFF := by
    have := hg 4 (by omega)
    simpa [pairByte] using this
  have e1 : g (x + 4 + 1) = (p.2 >>> 8) &&& 0xFF := by
    have := hg 5 (by omega)
    rw [show x + 4 + 1 = x + 5 from by omega]
    simpa [pairByte] using this
  have e2 : g (x + 4 + 2) = (p.2 >>> 16) &&& 0xFF := by
    have := hg 6 (by omega)
    rw [show x + 4 + 2 = x + 6 from by omega]
    simpa [pairByte] using this
  have e3 : g (x + 4 + 3) = (p.2 >>> 24) &&& 0xFF := by
    have := hg 7 (by omega)
    rw [show x + 4 + 3 = x + 7 from by omega]
    simpa [pairByte] using this
  simp only [readLe32, e0, e1, e2, e3]
  rw [and_255_eq_mod, and_255_eq_mod, and_255_eq_mod, and_255_eq_mod,
    shr_eq_div, shr_eq_div, shr_eq_div]
  have e8 : (2 : Nat) ^ 8 = 256 := by norm_num
  have e16 : (2 : Nat) ^ 16 = 65536 := by norm_num
  have e24 : (2 : Nat) ^ 24 = 16777216 := by norm_num
  rw [e8, e16, e24]
  omega

/-- Extracting byte `m` of the block pair read from byte-bounded `sa` gives
the corresponding byte of `sa`. -/
theorem pairByte_readLe32 (sa : Nat → Nat) (k m : Nat) (hsa : ∀ j, sa j < 256)
    (hm : m < 8) : pairByte (readLe32 sa k, readLe32 sa (k + 4)) m = sa (k + m) := by
  have b0 := hsa k
  have b1 := hsa (k + 1)
  have b2 := hsa (k + 2)
  have b3 := hsa (k + 3)
  have b4 := hsa (k + 4)
  have b5 := hsa (k + 5)
  have b6 := hsa (k + 6)
  have b7 := hsa (k + 7)
  have e1 : k + 4 + 1 = k + 5 := by omega
  have e2 : k + 4 + 2 = k + 6 := by omega
  have e3 : k + 4 + 3 = k + 7 := by omega
  have hc : m = 0 ∨ m = 1 ∨ m = 2 ∨ m = 3 ∨ m = 4 ∨ m = 5 ∨ m = 6 ∨ m = 7 := by omega
  rcases hc with rfl | rfl | rfl | rfl | rfl | rfl | rfl | rfl <;>
    · simp only [pairByte, and_255_eq_mod, shr_eq_div, readLe32, e1, e2, e3]
      norm_num
      all_goals omega

/-! ### Characterization of `cryptBlocks` -/

theorem cryptBlocksAux_spec (f : Nat × Nat → Nat × Nat) :
    ∀ (n : Nat) (sa : Nat → Nat) (i j : Nat),
      cryptBlocksAux f sa n i j =
        if i ≤ j ∧ j < i + 8 * n then
          pairByte
            (f (readLe32 sa (i + 8 * ((j - i) / 8)), readLe32 sa (i + 8 * ((j - i) / 8) + 4)))
            ((j - i) % 8)
        else sa j := by
  intro n
  induction n with
  | zero =>
    intro sa i j
    simp only [cryptBlocksAux]
    rw [if_neg (by omega)]
  | succ m ih =>
    intro sa i j
    simp only [cryptBlocksAux]
    rw [ih]
    rcases Nat.lt_or_ge j i with hlt | hge
    · rw [if_neg (by omega), if_neg (by omega)]
      rw [writeLe32_other _ _ _ _ (by omega), writeLe32_other _ _ _ _ (by omega)]
    · rcases Nat.lt_or_ge j (i + 8) with hlt8 | hge8
      · rw [if_neg (by omega), if_pos (show i ≤ j ∧ j < i + 8 * (m + 1) from by omega)]
        rw [show (j - i) / 8 = 0 from by omega, show (j - i) % 8 = j - i from by omega]
        rw [show i + 8 * 0 = i from by omega]
        have hw := write_pair_byte sa i (f (readLe32 sa i, readLe32 sa (i + 4))) (j - i)
          (by omega)
        rw [show i + (j - i) = j from by omega] at hw
        exact hw
      · rcases Nat.lt_or_ge j (i + 8 * (m + 1)) with hin | hout
        case inr =>
          rw [if_neg (by omega), if_neg (by omega)]
          rw [writeLe32_other _ _ _ _ (by omega), writeLe32_other _ _ _ _ (by omega)]
        rw [if_pos (show i + 8 ≤ j ∧ j < i + 8 + 8 * m from by omega),
          if_pos (show i ≤ j ∧ j < i + 8 * (m + 1) from by omega)]
        have hb1 : ∀ t, t < 4 →
            writeLe32 (writeLe32 sa i (f (readLe32 sa i, readLe32 sa (i + 4))).1) (i + 4)
              (f (readLe32 sa i, readLe32 sa (i + 4))).2 (i + 8 + 8 * ((j - (i + 8)) / 8) + t) =
            sa (i + 8 + 8 * ((j - (i + 8)) / 8) + t) := by
          intro t ht
          rw [writeLe32_other _ _ _ _ (by omega), writeLe32_other _ _ _ _ (by omega)]
        have hb2 : ∀ t, t < 4 →
            writeLe32 (writeLe32 sa i (f (readLe32 sa i, readLe32 sa (i + 4))).1) (i + 4)
              (f (readLe32 sa i, readLe32 sa (i + 4))).2
              (i + 8 + 8 * ((j - (i + 8)) / 8) + 4 + t) =
            sa (i + 8 + 8 * ((j - (i + 8)) / 8) + 4 + t) := by
          intro t ht
          rw [writeLe32_other _ _ _ _ (by omega), writeLe32_other _ _ _ _ (by omega)]
        rw [readLe32_eq_of _ _ _ hb1, readLe32_eq_of _ _ _ hb2]
        rw [show i + 8 + 8 * ((j - (i + 8)) / 8) = i + 8 * ((j - i) / 8) from by omega,
          show (j - (i + 8)) % 8 = (j - i) % 8 from by omega]

theorem cryptBlocks_spec (f : Nat × Nat → Nat × Nat) (sa : Nat → Nat) (j : Nat) :
    cryptBlocks f sa j =
      if j < 0x800 then
        pairByte (f (readLe32 sa (8 * (j / 8)), readLe32 sa (8 * (j / 8) + 4))) (j % 8)
      else sa j := by
  unfold cryptBlocks
  rw [cryptBlocksAux_spec]
  rcases Nat.lt_or_ge j 0x800 with h | h
  · rw [if_pos (show 0 ≤ j ∧ j < 0 + 8 * 0x100 from by omega), if_pos h]
    rw [show (0 : Nat) + 8 * ((j - 0) / 8) = 8 * (j / 8) from by omega,
      show j - 0 = j from by omega]
  · rw [if_neg (by omega), if_neg (by omega)]

theorem cryptBlocks_byte_lt (f : Nat × Nat → Nat × Nat) (sa : Nat → Nat)
    (hsa : ∀ j, sa j < 256) : ∀ j, cryptBlocks f sa j < 256 := by
  intro j
  rw [cryptBlocks_spec]
  split
  · exact pairByte_lt _ _
  · exact hsa j

/-- Applying `cryptBlocks` with a cipher and then with its inverse restores
every byte of a byte-bounded secure area. -/
theorem cryptBlocks_roundtrip (E D : Nat × Nat → Nat × Nat)
    (hinv : ∀ y x, y < 2 ^ 32 → x < 2 ^ 32 → D (E (y, x)) = (y, x))
    (hbE : ∀ y x, y < 2 ^ 32 → x < 2 ^ 32 → (E (y, x)).1 < 2 ^ 32 ∧ (E (y, x)).2 < 2 ^ 32)
    (sa : Nat → Nat) (hsa : ∀ j, sa j < 256) :
    ∀ j, cryptBlocks D (cryptBlocks E sa) j = sa j := by
  intro j
  rw [cryptBlocks_spec]
  rcases Nat.lt_or_ge j 0x800 with h | h
  · rw [if_pos h]
    have hy := readLe32_lt sa (8 * (j / 8)) (hsa _) (hsa _) (hsa _) (hsa _)
    have hx := readLe32_lt sa (8 * (j / 8) + 4) (hsa _) (hsa _) (hsa _) (hsa _)
    have hE := hbE (readLe32 sa (8 * (j / 8))) (readLe32 sa (8 * (j / 8) + 4)) hy hx
    have hbyte : ∀ t, t < 8 → cryptBlocks E sa (8 * (j / 8) + t) =
        pairByte (E (readLe32 sa (8 * (j / 8)), readLe32 sa (8 * (j / 8) + 4))) t := by
      intro t ht
      rw [cryptBlocks_spec, if_pos (show 8 * (j / 8) + t < 0x800 from by omega)]
      rw [show 8 * ((8 * (j / 8) + t) / 8) = 8 * (j / 8) from by omega,
        show (8 * (j / 8) + t) % 8 = t from by omega]
    rw [readLe32_pairBytes1 _ _ _ hbyte hE.1, readLe32_pairBytes2 _ _ _ hbyte hE.2]
    rw [hinv _ _ hy hx]
    rw [pairByte_readLe32 sa _ _ hsa (by omega)]
    rw [show 8 * (j / 8) + j % 8 = j from by omega]
  · rw [if_neg (by omega)]
    rw [cryptBlocks_spec, if_neg (by omega)]

/-! ### The all-zero key schedule -/

theorem feistelF_zero (buf : Nat → Nat) (hbuf : ∀ j, buf j = 0) (z : Nat) :
    feistelF buf z = 0 := by
  simp [feistelF, hbuf]

theorem feistelRound_zero (buf : Nat → Nat) (hbuf : ∀ j, buf j = 0) (st : Nat × Nat)
    (a : Nat) : feistelRound buf st a = (st.2, st.1) := by
  simp [feistelRound, feistelF_zero buf hbuf, hbuf]

theorem encRounds_zero (buf : Nat → Nat) (hbuf : ∀ j, buf j = 0) :
    ∀ (n a : Nat) (st : Nat × Nat),
      encRounds buf a n st = if n % 2 = 0 then (st.1, st.2) else (st.2, st.1) := by
  intro n
  induction n with
  | zero => intro a st; simp [encRounds]
  | succ n ih =>
    intro a st
    simp only [encRounds]
    rw [feistelRound_zero buf hbuf, ih]
    rcases Nat.mod_two_eq_zero_or_one n with h2 | h2
    · rw [if_pos h2, if_neg (by omega)]
    · rw [if_neg (by omega), if_pos (by omega)]

theorem decRounds_zero (buf : Nat → Nat) (hbuf : ∀ j, buf j = 0) :
    ∀ (n a : Nat) (st : Nat × Nat),
      decRounds buf a n st = if n % 2 = 0 then (st.1, st.2) else (st.2, st.1) := by
  intro n
  induction n with
  | zero => intro a st; simp [decRounds]
  | succ n ih =>
    intro a st
    simp only [decRounds]
    rcases Nat.mod_two_eq_zero_or_one n with h2 | h2
    · rw [ih, if_pos h2, feistelRound_zero buf hbuf, if_neg (by omega)]
    · rw [ih, if_neg (by omega), feistelRound_zero buf hbuf, if_pos (by omega)]

theorem encrypt_64_bit_zero (buf : Nat → Nat) (hbuf : ∀ j, buf j = 0) (y x : Nat) :
    encrypt_64_bit buf (y, x) = (x, y) := by
  simp only [encrypt_64_bit]
  rw [encRounds_zero buf hbuf]
  norm_num [hbuf]

theorem decrypt_64_bit_zero (buf : Nat → Nat) (hbuf : ∀ j, buf j = 0) (y x : Nat) :
    decrypt_64_bit buf (y, x) = (x, y) := by
  simp only [decrypt_64_bit]
  rw [decRounds_zero buf hbuf]
  norm_num [hbuf]

theorem scheduleLoop_zero :
    ∀ (n : Nat) (buf : Nat → Nat) (scratch : Nat × Nat) (i : Nat),
      (∀ j, buf j = 0) → scratch = (0, 0) → ∀ j, scheduleLoop n buf scratch i j = 0 := by
  intro n
  induction n with
  | zero => intro buf scratch i hbuf _ j; exact hbuf j
  | succ m ih =>
    intro buf scratch i hbuf hscr j
    subst hscr
    simp only [scheduleLoop]
    rw [encrypt_64_bit_zero buf hbuf]
    refine ih _ _ _ ?_ rfl j
    intro j'
    dsimp only
    split
    · rfl
    · split
      · rfl
      · exact hbuf j'

theorem apply_key_code_zero (MODULO : Nat) (kb : KeyBuffer) (h : IsZeroKb kb) :
    IsZeroKb (apply_key_code MODULO kb) := by
  obtain ⟨hbuf, hkc⟩ := h
  have hz0 : encrypt_64_bit kb.key_buf (0, 0) = (0, 0) := encrypt_64_bit_zero _ hbuf 0 0
  have hz0' : encrypt_64_bit kb.key_buf 0 = 0 := by simpa using hz0
  have hsw : swapBytes32 0 = 0 := by decide
  constructor
  · intro j
    simp only [apply_key_code]
    simp [hkc, hz0, hz0']
    refine scheduleLoop_zero _ _ _ _ ?_ rfl j
    intro j'
    simp [hbuf, hsw]
  · intro j
    simp [apply_key_code, hkc, hz0, hz0']

theorem level_3_zero (MODULO : Nat) (kb : KeyBuffer) (h : IsZeroKb kb) :
    IsZeroKb (level_3 MODULO kb) := by
  obtain ⟨hbuf, hkc⟩ := h
  apply apply_key_code_zero
  refine ⟨hbuf, ?_⟩
  intro j
  simp [hkc]

theorem zeroKeyBuffer_zero : IsZeroKb zeroKeyBuffer := by
  unfold zeroKeyBuffer new_boxed
  apply apply_key_code_zero
  apply apply_key_code_zero
  constructor
  · intro j
    simp [readLe32, zeroBios]
  · intro j
    simp

/-! ### Round-trip of the secure-area transforms -/

theorem encryObjByte_lt (j : Nat) : encryObjByte j < 256 := by
  unfold encryObjByte
  split_ifs <;> norm_num

/-- Decrypting an encrypted secure area restores every byte of the plaintext
with `"encryObj"` installed over the first 8 bytes. -/
theorem secure_area_roundtrip (kb : KeyBuffer) (hkb : IsBounded kb) (sa : Nat → Nat)
    (hsa : ∀ j, sa j < 256) :
    ∀ j, secure_area_decrypt kb (secure_area_encrypt kb sa) j =
      if j < 8 then encryObjByte j else sa j := by
  intro j
  simp only [secure_area_encrypt, secure_area_decrypt]
  set sa1 : Nat → Nat := fun j' => if j' < 8 then encryObjByte j' else sa j' with hsa1def
  set l3 : Nat → Nat := (level_3 2 kb).key_buf with hl3
  set sa2 : Nat → Nat := cryptBlocks (encrypt_64_bit l3) sa1 with hsa2def
  set A : Nat := readLe32 sa2 0 with hA
  set B : Nat := readLe32 sa2 4 with hB
  set r : Nat × Nat := encrypt_64_bit kb.key_buf (A, B) with hr
  have hsa1lt : ∀ j', sa1 j' < 256 := by
    intro j'
    rw [hsa1def]
    dsimp only
    split
    · exact encryObjByte_lt _
    · exact hsa j'
  have hsa2lt : ∀ j', sa2 j' < 256 := by
    intro j'
    rw [hsa2def]
    exact cryptBlocks_byte_lt _ _ hsa1lt j'
  have hAlt : A < 2 ^ 32 := by
    rw [hA]; exact readLe32_lt _ _ (hsa2lt _) (hsa2lt _) (hsa2lt _) (hsa2lt _)
  have hBlt : B < 2 ^ 32 := by
    rw [hB]; exact readLe32_lt _ _ (hsa2lt _) (hsa2lt _) (hsa2lt _) (hsa2lt _)
  have hrlt := encrypt_64_bit_lt kb.key_buf hkb.1 A B hAlt hBlt
  rw [← hr] at hrlt
  have hesa0 : readLe32 (writeLe32 (writeLe32 sa2 0 r.1) 4 r.2) 0 = r.1 := by
    have hb : ∀ t, t < 4 →
        writeLe32 (writeLe32 sa2 0 r.1) 4 r.2 (0 + t) = writeLe32 sa2 0 r.1 (0 + t) := by
      intro t ht
      exact writeLe32_other _ _ _ _ (by omega)
    rw [readLe32_eq_of _ _ _ hb]
    exact readLe32_writeLe32 _ _ _ hrlt.1
  have hesa4 : readLe32 (writeLe32 (writeLe32 sa2 0 r.1) 4 r.2) 4 = r.2 :=
    readLe32_writeLe32 _ _ _ hrlt.2
  rw [hesa0, hesa4]
  have hres : decrypt_64_bit kb.key_buf (r.1, r.2) = (A, B) := by
    have heta : ((r.1 : Nat), (r.2 : Nat)) = r := rfl
    rw [heta, hr]
    exact decrypt_encrypt_64 _ _
  rw [hres]
  dsimp only
  have hsa4 : writeLe32 (writeLe32 (writeLe32 (writeLe32 sa2 0 r.1) 4 r.2) 0 A) 4 B = sa2 := by
    funext j'
    rcases Nat.lt_or_ge j' 8 with hj8 | hj8
    · have hw := write_pair_byte (writeLe32 (writeLe32 sa2 0 r.1) 4 r.2) 0 (A, B) j' hj8
      norm_num at hw
      rw [hw]
      have hpb := pairByte_readLe32 sa2 0 j' hsa2lt hj8
      norm_num at hpb
      rw [← hA, ← hB] at hpb
      exact hpb
    · rw [writeLe32_other _ _ _ _ (by omega), writeLe32_other _ _ _ _ (by omega),
        writeLe32_other _ _ _ _ (by omega), writeLe32_other _ _ _ _ (by omega)]
  rw [hsa4, hsa2def]
  have hl3b : ∀ j', l3 j' < 2 ^ 32 := by
    intro j'
    rw [hl3]
    exact (level_3_bounded 2 kb hkb).1 j'
  rw [cryptBlocks_roundtrip (encrypt_64_bit l3) (decrypt_64_bit l3)
    (fun y x _ _ => decrypt_encrypt_64 l3 (y, x))
    (fun y x hy hx => encrypt_64_bit_lt l3 hl3b y x hy hx) sa1 hsa1lt j]

/-! ### `setup` equations -/

theorem setup_false_encrypt_eq (d : Normal) (kb : KeyBuffer) (sa : Nat → Nat)
    (hkb : d.key_buf = some kb) (hsa : d.contents.secureArea = some sa)
    (hmagic : readLe64 sa 0 = blankMagic) :
    setup d false = SetupOutcome.ok { d with contents := { d.contents with
      secureArea := some (secure_area_encrypt kb sa) } } := by
  simp only [setup]
  rw [hsa, hkb]
  simp [hmagic]

theorem setup_true_decrypt_eq (d : Normal) (kb : KeyBuffer) (sa : Nat → Nat)
    (hkb : d.key_buf = some kb) (hsa : d.contents.secureArea = some sa)
    (hcomm : 0x4000 ≤ readLe32 d.contents.data 0x20 ∧ readLe32 d.contents.data 0x20 < 0x8000)
    (hne : readLe64 sa 0 ≠ blankMagic) :
    setup d true = SetupOutcome.ok { d with
      contents := { d.contents with secureArea := some (secure_area_decrypt kb sa) },
      stage := Stage.Key2 } := by
  simp only [setup]
  rw [hsa, hkb]
  simp [hne, hcomm.1, hcomm.2]

/-- `setup(false)` then `setup(true)` on a commercial, plaintext-magic secure
area: both calls succeed, every byte from offset 8 on is restored, and the
first 8 bytes end as `"encryObj"`. -/
theorem setup_roundtrip_helper (d : Normal) (kb : KeyBuffer) (sa : Nat → Nat)
    (hkb : d.key_buf = some kb) (hkbB : IsBounded kb)
    (hsa : d.contents.secureArea = some sa) (hsaB : ∀ j, sa j < 256)
    (hmagic : readLe64 sa 0 = blankMagic)
    (hcomm : 0x4000 ≤ readLe32 d.contents.data 0x20 ∧ readLe32 d.contents.data 0x20 < 0x8000)
    (hne : readLe64 (secure_area_encrypt kb sa) 0 ≠ blankMagic) :
    setup d false = SetupOutcome.ok { d with contents := { d.contents with
        secureArea := some (secure_area_encrypt kb sa) } } ∧
    setup { d with contents := { d.contents with
        secureArea := some (secure_area_encrypt kb sa) } } true =
      SetupOutcome.ok { d with
        contents := { d.contents with
          secureArea := some (secure_area_decrypt kb (secure_area_encrypt kb sa)) },
        stage := Stage.Key2 } ∧
    (∀ j, j < 8 → secure_area_decrypt kb (secure_area_encrypt kb sa) j = encryObjByte j) ∧
    (∀ j, 8 ≤ j → secure_area_decrypt kb (secure_area_encrypt kb sa) j = sa j) := by
  refine ⟨setup_false_encrypt_eq d kb sa hkb hsa hmagic, ?_, ?_, ?_⟩
  · exact setup_true_decrypt_eq _ kb _ hkb rfl hcomm hne
  · intro j hj
    rw [secure_area_roundtrip kb hkbB sa hsaB j, if_pos hj]
  · intro j hj
    rw [secure_area_roundtrip kb hkbB sa hsaB j, if_neg (by omega)]

/-! ### When `setup` fails, panics, or no-ops -/

theorem setup_fail_characterization (d : Normal) (b : Bool) :
    (∃ d', setup d b = SetupOutcome.fail d') ↔
      (b = true ∧
       (0x4000 ≤ readLe32 d.contents.data 0x20 ∧ readLe32 d.contents.data 0x20 < 0x8000) ∧
       (∃ sa, d.contents.secureArea = some sa ∧ readLe64 sa 0 ≠ blankMagic) ∧
       d.key_buf = none) := by
  cases b
  case false =>
    constructor
    · rintro ⟨d', hd'⟩
      exfalso
      simp only [setup] at hd'
      rw [if_neg (show ¬((false : Bool) = true) from by simp)] at hd'
      rcases hsa : d.contents.secureArea with _ | sa
      · simp only [hsa] at hd'
        exact SetupOutcome.noConfusion hd'
      · simp only [hsa] at hd'
        rcases hkb : d.key_buf with _ | kb
        · simp only [hkb] at hd'
          exact SetupOutcome.noConfusion hd'
        · simp only [hkb] at hd'
          split at hd' <;> exact SetupOutcome.noConfusion hd'
    · rintro ⟨hb, _⟩
      exact Bool.noConfusion hb
  case true =>
    constructor
    · rintro ⟨d', hd'⟩
      simp only [setup] at hd'
      rw [if_pos trivial] at hd'
      by_cases hcomm : 0x4000 ≤ readLe32 d.contents.data 0x20 ∧
          readLe32 d.contents.data 0x20 < 0x8000
      case neg =>
        rw [if_pos hcomm] at hd'
        exact absurd hd' (by simp)
      rw [if_neg (not_not_intro hcomm)] at hd'
      rcases hsa : d.contents.secureArea with _ | sa
      · simp only [hsa] at hd'
        exact absurd hd' (by simp)
      · simp only [hsa] at hd'
        by_cases hne : readLe64 sa 0 ≠ blankMagic
        case neg =>
          rw [if_neg hne] at hd'
          exact absurd hd' (by simp)
        rw [if_pos hne] at hd'
        rcases hkb : d.key_buf with _ | kb
        · exact ⟨rfl, hcomm, ⟨sa, rfl, hne⟩, rfl⟩
        · simp only [hkb] at hd'
          exact absurd hd' (by simp)
    · rintro ⟨_, hcomm, ⟨sa, hsa, hne⟩, hkb⟩
      refine ⟨{ d with stage := Stage.Key2 }, ?_⟩
      simp only [setup]
      rw [if_pos trivial, if_neg (not_not_intro hcomm)]
      simp only [hsa]
      rw [if_pos hne]
      simp only [hkb]

theorem setup_none_noop (d : Normal) (h : d.contents.secureArea = none) :
    setup d true = SetupOutcome.ok { d with stage := Stage.Key2 } ∧
    setup d false = SetupOutcome.ok d := by
  constructor
  · simp only [setup]
    rw [if_pos trivial]
    by_cases hcomm : 0x4000 ≤ readLe32 d.contents.data 0x20 ∧
        readLe32 d.contents.data 0x20 < 0x8000
    · rw [if_neg (not_not_intro hcomm)]
      simp only [h]
    · rw [if_pos hcomm]
  · simp only [setup]
    rw [if_neg (show ¬((false : Bool) = true) from by simp)]
    simp only [h]

theorem setup_fail_stage (d d' : Normal) (h : setup d true = SetupOutcome.fail d') :
    d' = { d with stage := Stage.Key2 } := by
  simp only [setup] at h
  rw [if_pos trivial] at h
  by_cases hcomm : 0x4000 ≤ readLe32 d.contents.data 0x20 ∧
      readLe32 d.contents.data 0x20 < 0x8000
  case neg =>
    rw [if_pos hcomm] at h
    exact absurd h (by simp)
  rw [if_neg (not_not_intro hcomm)] at h
  rcases hsa : d.contents.secureArea with _ | sa
  · simp only [hsa] at h
    exact absurd h (by simp)
  · simp only [hsa] at h
    by_cases hne : readLe64 sa 0 ≠ blankMagic
    case neg =>
      rw [if_neg hne] at h
      exact absurd h (by simp)
    rw [if_pos hne] at h
    rcases hkb : d.key_buf with _ | kb
    · simp only [hkb] at h
      injection h with h2
      exact h2.symm
    · simp only [hkb] at h
      exact absurd h (by simp)

theorem setup_false_no_key_panics (d : Normal) (sa : Nat → Nat)
    (hkb : d.key_buf = none) (hsa : d.contents.secureArea = some sa) :
    setup d false = SetupOutcome.panicked := by
  simp only [setup]
  rw [if_neg (show ¬((false : Bool) = true) from by simp)]
  simp only [hsa, hkb]

theorem key1_no_key_panics (d : Normal) (cmd out : Nat → Nat) (out_len : Nat)
    (hkb : d.key_buf = none) (hstage : d.stage = Stage.Key1) :
    handle_rom_command d cmd out out_len = HrcOutcome.panicked := by
  simp only [handle_rom_command, hstage, hkb]

/-! ### Characterization of the 0xB7 read loop -/

/-- Once the loop restarts from the page start, it copies cyclically through
the 0x1000-byte page. -/
theorem b7ReadLoop_page (data : Nat → Nat) (page_start out_len : Nat) :
    ∀ (k s : Nat) (out : Nat → Nat), out_len - s ≤ k →
      b7ReadLoop data out page_start (page_start + 0x1000) out_len page_start s =
        fun j => if s ≤ j ∧ j < out_len then data (page_start + (j - s) % 0x1000) else out j := by
  intro k
  induction k with
  | zero =>
    intro s out hk
    rw [b7ReadLoop, dif_neg (by omega)]
    funext j
    rw [if_neg (by omega)]
  | succ k ih =>
    intro s out hk
    by_cases h : s < out_len
    case neg =>
      rw [b7ReadLoop, dif_neg h]
      funext j
      rw [if_neg (by omega)]
    rw [b7ReadLoop, dif_pos h]
    dsimp only
    rw [dif_neg (show ¬min (page_start + 0x1000 - page_start) (out_len - s) = 0 from by omega)]
    rw [ih (s + min (page_start + 0x1000 - page_start) (out_len - s)) _ (by omega)]
    funext j
    rcases Nat.lt_or_ge j s with hjs | hjs
    · rw [if_neg (by omega), if_neg (by omega), if_neg (by omega)]
    · rcases Nat.lt_or_ge j (s + min (page_start + 0x1000 - page_start) (out_len - s))
        with hjl | hjl
      · rw [if_neg (by omega), if_pos (show s ≤ j ∧
          j < s + min (page_start + 0x1000 - page_start) (out_len - s) from by omega)]
        rw [if_pos (show s ≤ j ∧ j < out_len from by omega)]
        congr 1
        omega
      · rcases Nat.lt_or_ge j out_len with hjo | hjo
        · rw [if_pos (show s + min (page_start + 0x1000 - page_start) (out_len - s) ≤ j ∧
            j < out_len from by omega)]
          rw [if_pos (show s ≤ j ∧ j < out_len from by omega)]
          congr 1
          omega
        · rw [if_neg (by omega), if_neg (by omega), if_neg (by omega)]

/-- The full loop, starting from an arbitrary address inside the page. -/
theorem b7ReadLoop_first (data : Nat → Nat) (out : Nat → Nat)
    (page_start out_len addr : Nat)
    (haddr : page_start ≤ addr ∧ addr < page_start + 0x1000) :
    b7ReadLoop data out page_start (page_start + 0x1000) out_len addr 0 =
      fun j =>
        if j < out_len then
          data (if j < page_start + 0x1000 - addr then addr + j
            else page_start + (j - (page_start + 0x1000 - addr)) % 0x1000)
        else out j := by
  by_cases h : 0 < out_len
  case neg =>
    rw [b7ReadLoop, dif_neg (by omega)]
    funext j
    rw [if_neg (by omega)]
  rw [b7ReadLoop, dif_pos h]
  dsimp only
  rw [dif_neg (show ¬min (page_start + 0x1000 - addr) (out_len - 0) = 0 from by omega)]
  rw [b7ReadLoop_page data page_start out_len out_len
    (0 + min (page_start + 0x1000 - addr) (out_len - 0)) _ (by omega)]
  funext j
  rcases Nat.lt_or_ge j (min (page_start + 0x1000 - addr) (out_len - 0)) with hjf | hjf
  · rw [if_neg (by omega), if_pos (show 0 ≤ j ∧
      j < 0 + min (page_start + 0x1000 - addr) (out_len - 0) from by omega)]
    rw [if_pos (show j < out_len from by omega), if_pos (show
      j < page_start + 0x1000 - addr from by omega)]
    congr 1
  · rcases Nat.lt_or_ge j out_len with hjo | hjo
    · rw [if_pos (show 0 + min (page_start + 0x1000 - addr) (out_len - 0) ≤ j ∧
        j < out_len from by omega)]
      rw [if_pos hjo, if_neg (show ¬j < page_start + 0x1000 - addr from by omega)]
      congr 1
      omega
    · rw [if_neg (by omega), if_neg (by omega), if_neg (by omega)]

/-- In KEY2 stage, a command with first byte 0xB7 produces exactly the output
described by `claimB7Output` and leaves the device unchanged. -/
theorem handle_b7_eq (d : Normal) (cmd out : Nat → Nat) (out_len : Nat)
    (hstage : d.stage = Stage.Key2) (hcmd : cmd 0 = 0xB7) :
    handle_rom_command d cmd out out_len =
      HrcOutcome.ok d
        (claimB7Output d.contents.data (readBe32 cmd 1 &&& d.rom_mask) out out_len) := by
  simp only [handle_rom_command, hstage]
  rw [if_pos hcmd]
  congr 1
  rw [b7ReadLoop_first _ _ _ _ _ (by omega)]
  rfl

/-! ### Facts about the concrete fixtures -/

theorem isBounded_of_isZero (kb : KeyBuffer) (h : IsZeroKb kb) : IsBounded kb :=
  ⟨fun j => by rw [h.1 j]; norm_num, fun j => by rw [h.2 j]; norm_num⟩

theorem magicSA_lt (j : Nat) : magicSA j < 256 := by
  unfold magicSA
  split_ifs <;> norm_num

theorem readLe64_split (b : Nat → Nat) (i : Nat) :
    readLe64 b i = readLe32 b i + readLe32 b (i + 4) * 0x100000000 := by
  have e1 : i + 4 + 1 = i + 5 := by omega
  have e2 : i + 4 + 2 = i + 6 := by omega
  have e3 : i + 4 + 3 = i + 7 := by omega
  simp only [readLe64, readLe32, e1, e2, e3]
  ring

/-- Under the all-zero schedule, the encrypted secure area's first 8 bytes are
`"encryObj"` again (both cipher levels degenerate to a word swap), which is
not the blank magic. -/
theorem secure_area_encrypt_zero_ne_magic :
    readLe64 (secure_area_encrypt zeroKeyBuffer magicSA) 0 ≠ blankMagic := by
  obtain ⟨hzb, hzc⟩ := zeroKeyBuffer_zero
  have hl3z := level_3_zero 2 zeroKeyBuffer zeroKeyBuffer_zero
  simp only [secure_area_encrypt]
  set sa1 : Nat → Nat := fun j => if j < 8 then encryObjByte j else magicSA j with hsa1def
  set sa2 : Nat → Nat :=
    cryptBlocks (encrypt_64_bit (level_3 2 zeroKeyBuffer).key_buf) sa1 with hsa2def
  have hA1 : readLe32 sa1 0 = 0x72636E65 := by rw [hsa1def]; decide
  have hA2 : readLe32 sa1 4 = 0x6A624F79 := by rw [hsa1def]; decide
  have hbyte : ∀ t, t < 8 → sa2 (0 + t) = pairByte (0x6A624F79, 0x72636E65) t := by
    intro t ht
    rw [Nat.zero_add, hsa2def]
    rw [cryptBlocks_spec, if_pos (show t < 0x800 from by omega)]
    rw [show 8 * (t / 8) = 0 from by omega, show t % 8 = t from by omega]
    norm_num
    rw [hA1, hA2, encrypt_64_bit_zero _ hl3z.1]
  have h0 : readLe32 sa2 0 = 0x6A624F79 :=
    readLe32_pairBytes1 sa2 0 (0x6A624F79, 0x72636E65) hbyte (by norm_num)
  have h4 : readLe32 sa2 4 = 0x72636E65 := by
    have h := readLe32_pairBytes2 sa2 0 (0x6A624F79, 0x72636E65) hbyte (by norm_num)
    simpa using h
  rw [h0, h4, encrypt_64_bit_zero _ hzb]
  dsimp only
  rw [readLe64_split]
  have hb : ∀ t, t < 4 → writeLe32 (writeLe32 sa2 0 0x72636E65) 4 0x6A624F79 (0 + t) =
      writeLe32 sa2 0 0x72636E65 (0 + t) := by
    intro t ht
    exact writeLe32_other _ _ _ _ (by omega)
  have e0 : readLe32 (writeLe32 (writeLe32 sa2 0 0x72636E65) 4 0x6A624F79) 0 = 0x72636E65 := by
    rw [readLe32_eq_of _ _ _ hb]
    exact readLe32_writeLe32 _ _ _ (by norm_num)
  have e4 : readLe32 (writeLe32 (writeLe32 sa2 0 0x72636E65) 4 0x6A624F79) 4 = 0x6A624F79 :=
    readLe32_writeLe32 _ _ _ (by norm_num)
  rw [e0, e4]
  norm_num [blankMagic]

/-! ## Claim theorems -/

/-- C1: for every KEY1 key buffer produced by the key schedule (level 2 or
level 3) and every pair of 32-bit words `(a, b)`,
`decrypt_64_bit (encrypt_64_bit [a, b]) = [a, b]` and
`encrypt_64_bit (decrypt_64_bit [a, b]) = [a, b]`. -/
theorem claim_C1_cipher_roundtrip (arm7_bios : Nat → Nat) (id_code a b : Nat)
    (ha : a < 2 ^ 32) (hb : b < 2 ^ 32) :
    (decrypt_64_bit (new_boxed 2 id_code arm7_bios).key_buf
        (encrypt_64_bit (new_boxed 2 id_code arm7_bios).key_buf (a, b)) = (a, b) ∧
      encrypt_64_bit (new_boxed 2 id_code arm7_bios).key_buf
        (decrypt_64_bit (new_boxed 2 id_code arm7_bios).key_buf (a, b)) = (a, b)) ∧
    (decrypt_64_bit (level_3 2 (new_boxed 2 id_code arm7_bios)).key_buf
        (encrypt_64_bit (level_3 2 (new_boxed 2 id_code arm7_bios)).key_buf (a, b)) = (a, b) ∧
      encrypt_64_bit (level_3 2 (new_boxed 2 id_code arm7_bios)).key_buf
        (decrypt_64_bit (level_3 2 (new_boxed 2 id_code arm7_bios)).key_buf (a, b)) = (a, b)) :=
  ⟨⟨decrypt_encrypt_64 _ _, encrypt_decrypt_64 _ _⟩,
    ⟨decrypt_encrypt_64 _ _, encrypt_decrypt_64 _ _⟩⟩

theorem claim_C1_witness :
    (3 : Nat) < 2 ^ 32 ∧ (5 : Nat) < 2 ^ 32 ∧
    ((decrypt_64_bit (new_boxed 2 0x41424344 zeroBios).key_buf
        (encrypt_64_bit (new_boxed 2 0x41424344 zeroBios).key_buf (3, 5)) = (3, 5) ∧
      encrypt_64_bit (new_boxed 2 0x41424344 zeroBios).key_buf
        (decrypt_64_bit (new_boxed 2 0x41424344 zeroBios).key_buf (3, 5)) = (3, 5)) ∧
    (decrypt_64_bit (level_3 2 (new_boxed 2 0x41424344 zeroBios)).key_buf
        (encrypt_64_bit (level_3 2 (new_boxed 2 0x41424344 zeroBios)).key_buf (3, 5)) = (3, 5) ∧
      encrypt_64_bit (level_3 2 (new_boxed 2 0x41424344 zeroBios)).key_buf
        (decrypt_64_bit (level_3 2 (new_boxed 2 0x41424344 zeroBios)).key_buf (3, 5)) = (3, 5))) :=
  ⟨by norm_num, by norm_num,
    claim_C1_cipher_roundtrip zeroBios 0x41424344 3 5 (by norm_num) (by norm_num)⟩

/-- C2 (amended): on a commercial image whose secure area starts with the
plaintext magic, `setup(false)` then `setup(true)` succeed and leave bytes
`8..0x800` (indeed, every byte from offset 8 on) byte-identical, while bytes
`0..8` end as the ASCII string `"encryObj"` rather than the original magic —
provided the encrypted first 8 bytes do not themselves equal the magic. -/
theorem claim_C2_setup_roundtrip (d : Normal) (kb : KeyBuffer) (sa : Nat → Nat)
    (hkb : d.key_buf = some kb) (hkbB : IsBounded kb)
    (hsa : d.contents.secureArea = some sa) (hsaB : ∀ j, sa j < 256)
    (hmagic : readLe64 sa 0 = blankMagic)
    (hcomm : 0x4000 ≤ readLe32 d.contents.data 0x20 ∧ readLe32 d.contents.data 0x20 < 0x8000)
    (hne : readLe64 (secure_area_encrypt kb sa) 0 ≠ blankMagic) :
    setup d false = SetupOutcome.ok { d with contents := { d.contents with
        secureArea := some (secure_area_encrypt kb sa) } } ∧
    setup { d with contents := { d.contents with
        secureArea := some (secure_area_encrypt kb sa) } } true =
      SetupOutcome.ok { d with
        contents := { d.contents with
          secureArea := some (secure_area_decrypt kb (secure_area_encrypt kb sa)) },
        stage := Stage.Key2 } ∧
    (∀ j, j < 8 → secure_area_decrypt kb (secure_area_encrypt kb sa) j = encryObjByte j) ∧
    (∀ j, 8 ≤ j → secure_area_decrypt kb (secure_area_encrypt kb sa) j = sa j) :=
  setup_roundtrip_helper d kb sa hkb hkbB hsa hsaB hmagic hcomm hne

theorem claim_C2_witness :
    devC2.key_buf = some zeroKeyBuffer ∧
    devC2.contents.secureArea = some magicSA ∧
    readLe64 magicSA 0 = blankMagic ∧
    (setup devC2 false = SetupOutcome.ok { devC2 with contents := { devC2.contents with
        secureArea := some (secure_area_encrypt zeroKeyBuffer magicSA) } } ∧
    setup { devC2 with contents := { devC2.contents with
        secureArea := some (secure_area_encrypt zeroKeyBuffer magicSA) } } true =
      SetupOutcome.ok { devC2 with
        contents := { devC2.contents with
          secureArea := some
            (secure_area_decrypt zeroKeyBuffer (secure_area_encrypt zeroKeyBuffer magicSA)) },
        stage := Stage.Key2 } ∧
    (∀ j, j < 8 →
      secure_area_decrypt zeroKeyBuffer (secure_area_encrypt zeroKeyBuffer magicSA) j =
        encryObjByte j) ∧
    (∀ j, 8 ≤ j →
      secure_area_decrypt zeroKeyBuffer (secure_area_encrypt zeroKeyBuffer magicSA) j =
        magicSA j)) :=
  ⟨rfl, rfl, by decide,
    claim_C2_setup_roundtrip devC2 zeroKeyBuffer magicSA rfl
      (isBounded_of_isZero _ zeroKeyBuffer_zero) rfl magicSA_lt (by decide)
      ⟨by decide, by decide⟩ secure_area_encrypt_zero_ne_magic⟩

theorem roundtripSecureByte_eq (d d1 d2 : Normal) (sa2 : Nat → Nat) (j : Nat)
    (h1 : setup d false = SetupOutcome.ok d1) (h2 : setup d1 true = SetupOutcome.ok d2)
    (h3 : d2.contents.secureArea = some sa2) :
    roundtripSecureByte d j = some (sa2 j) := by
  unfold roundtripSecureByte
  rw [h1]
  dsimp only
  rw [h2]
  dsimp only
  rw [h3]

/-- C2 counterexample: on the concrete device `devC2` the two `setup` calls
succeed but byte 0 of the secure area ends as 0x65 (`'e'` of `"encryObj"`),
not the original magic byte 0xFF — the area is not byte-identical. -/
theorem claim_C2_counterexample :
    roundtripSecureByte devC2 0 = some 0x65 ∧ magicSA 0 = 0xFF ∧ (0x65 : Nat) ≠ 0xFF := by
  obtain ⟨h1, h2, h3, _⟩ := setup_roundtrip_helper devC2 zeroKeyBuffer magicSA rfl
    (isBounded_of_isZero _ zeroKeyBuffer_zero) rfl magicSA_lt (by decide)
    ⟨by decide, by decide⟩ secure_area_encrypt_zero_ne_magic
  refine ⟨?_, by decide, by decide⟩
  rw [roundtripSecureByte_eq devC2 _ _ _ 0 h1 h2 rfl, h3 0 (by omega)]
  rfl

/-- C3 (amended): `setup` returns the SetupFailed error if and only if it is
called with `direct_boot = true` on a commercial image (secure-area start in
`[0x4000, 0x8000)`) whose secure area materializes with first 8 bytes
different from the blank magic, while no key schedule is available; when the
secure area cannot be materialized, `setup` returns success as a no-op. -/
theorem claim_C3_setup_failed (d : Normal) (b : Bool) :
    ((∃ d', setup d b = SetupOutcome.fail d') ↔
      (b = true ∧
       (0x4000 ≤ readLe32 d.contents.data 0x20 ∧ readLe32 d.contents.data 0x20 < 0x8000) ∧
       (∃ sa, d.contents.secureArea = some sa ∧ readLe64 sa 0 ≠ blankMagic) ∧
       d.key_buf = none)) ∧
    (d.contents.secureArea = none →
      setup d true = SetupOutcome.ok { d with stage := Stage.Key2 } ∧
      setup d false = SetupOutcome.ok d) :=
  ⟨setup_fail_characterization d b, fun h => setup_none_noop d h⟩

theorem claim_C3_witness :
    ((∃ d', setup devC3b true = SetupOutcome.fail d') ↔
      ((true : Bool) = true ∧
       (0x4000 ≤ readLe32 devC3b.contents.data 0x20 ∧
         readLe32 devC3b.contents.data 0x20 < 0x8000) ∧
       (∃ sa, devC3b.contents.secureArea = some sa ∧ readLe64 sa 0 ≠ blankMagic) ∧
       devC3b.key_buf = none)) ∧
    (setup devC3b true = SetupOutcome.ok { devC3b with stage := Stage.Key2 } ∧
     setup devC3b false = SetupOutcome.ok devC3b) :=
  ⟨(claim_C3_setup_failed devC3b true).1, (claim_C3_setup_failed devC3b true).2 rfl⟩

/-- C3 counterexample: `devC3` is commercial, has no key schedule, and its
secure area materializes (with the plaintext magic) — yet `setup(true)`
succeeds instead of returning SetupFailed, refuting the claimed iff. -/
theorem claim_C3_counterexample :
    devC3.key_buf = none ∧
    0x4000 ≤ readLe32 devC3.contents.data 0x20 ∧
    readLe32 devC3.contents.data 0x20 < 0x8000 ∧
    devC3.contents.secureArea = some magicSA ∧
    setup devC3 true = SetupOutcome.ok { devC3 with stage := Stage.Key2 } :=
  ⟨rfl, by decide, by decide, rfl, rfl⟩

/-- C4: in stage KEY2, a command whose first byte is 0xB7 reads ROM at the
masked big-endian address from bytes 1..5 (rewritten to
`0x8000 | (addr & 0x1FF)` when below 0x8000), never crossing the enclosing
0x1000-byte page (wrapping to its start), and delivers exactly `out_len`
bytes. -/
theorem claim_C4_key2_b7 (d : Normal) (cmd out : Nat → Nat) (out_len : Nat)
    (hstage : d.stage = Stage.Key2) (hcmd : cmd 0 = 0xB7)
    (hmul : out_len % 4 = 0) (hmax : out_len ≤ 0x4000) :
    handle_rom_command d cmd out out_len =
      HrcOutcome.ok d
        (claimB7Output d.contents.data (readBe32 cmd 1 &&& d.rom_mask) out out_len) :=
  handle_b7_eq d cmd out out_len hstage hcmd

theorem claim_C4_witness :
    devC4.stage = Stage.Key2 ∧ cmdB7 0 = 0xB7 ∧ (8 : Nat) % 4 = 0 ∧ (8 : Nat) ≤ 0x4000 ∧
    handle_rom_command devC4 cmdB7 (fun _ => 0) 8 =
      HrcOutcome.ok devC4
        (claimB7Output devC4.contents.data (readBe32 cmdB7 1 &&& devC4.rom_mask)
          (fun _ => 0) 8) :=
  ⟨rfl, rfl, by norm_num, by norm_num,
    claim_C4_key2_b7 devC4 cmdB7 (fun _ => 0) 8 rfl rfl (by norm_num) (by norm_num)⟩

/-- C9: `setup(direct_boot = true)` assigns stage KEY2 before any failure
check — on the SetupFailed path the returned device is exactly the input
device with its stage moved from Initial to KEY2 (so the error path does not
leave the device unchanged). -/
theorem claim_C9_fail_stage (d d' : Normal) (h : setup d true = SetupOutcome.fail d') :
    d' = { d with stage := Stage.Key2 } :=
  setup_fail_stage d d' h

theorem claim_C9_witness :
    setup devC9 true = SetupOutcome.fail { devC9 with stage := Stage.Key2 } ∧
    ({ devC9 with stage := Stage.Key2 } : Normal) = { devC9 with stage := Stage.Key2 } ∧
    devC9.stage = Stage.Initial :=
  ⟨rfl, claim_C9_fail_stage devC9 _ rfl, rfl⟩

/-- C10: on a device constructed without an ARM7 BIOS (no key schedule),
`setup(false)` with a materializable secure area panics (the `expect` on
`key_buf`), and `handle_rom_command` in stage KEY1 panics, instead of
returning an error or filler output. -/
theorem claim_C10_no_key_panics (d : Normal) (sa cmd out : Nat → Nat) (out_len : Nat)
    (hkb : d.key_buf = none) :
    (d.contents.secureArea = some sa → setup d false = SetupOutcome.panicked) ∧
    (d.stage = Stage.Key1 → handle_rom_command d cmd out out_len = HrcOutcome.panicked) :=
  ⟨fun hsa => setup_false_no_key_panics d sa hkb hsa,
   fun hstage => key1_no_key_panics d cmd out out_len hkb hstage⟩

theorem claim_C10_witness :
    devC10.key_buf = none ∧ devC10.stage = Stage.Key1 ∧
    setup devC10 false = SetupOutcome.panicked ∧
    handle_rom_command devC10 cmdB7 (fun _ => 0) 4 = HrcOutcome.panicked :=
  ⟨rfl, rfl,
    (claim_C10_no_key_panics devC10 (fun _ => 0) cmdB7 (fun _ => 0) 4 rfl).1 rfl,
    (claim_C10_no_key_panics devC10 (fun _ => 0) cmdB7 (fun _ => 0) 4 rfl).2 rfl⟩

/-- C5 (code bug): a `read_slice` whose range lies entirely past the raw image
length (but within the power-of-two padded length — here raw length 5, padded
8, range `[6, 8)`) panics instead of zero-filling: `len - addr` underflows as
`usize`, so `read_exact` is asked for bytes past EOF and the `expect` fires
(`none` in the model). -/
theorem claim_C5_zero_fill_code_bug :
    read_slice fileC5 6 (fun _ => 0) 2 = none ∧
    fileC5.len = 5 ∧ (6 : Nat) + 2 ≤ 8 :=
  ⟨rfl, rfl, by norm_num⟩

/-- C6 (code bug): a read starting just before a materialized secure-area
overlay (`addr = 0x3FFF`, `out_len = 4`, overlay `[0x4000, 0x4800)`) panics
instead of copying the intersecting slice: the copy length
`min(out_len, 0x800 - src)` ignores the destination offset, so the output
slice `[1, 5)` exceeds the 4-byte buffer (`none` in the model). -/
theorem claim_C6_overlay_code_bug :
    read_slice fileC6 0x3FFF (fun _ => 0) 4 = none ∧
    fileC6.secure_area = some (some (fun _ => 2)) ∧
    fileC6.secure_area_start = 0x4000 ∧ fileC6.secure_area_end = 0x4800 ∧
    (0x3FFF : Nat) < 0x4800 ∧ (0x3FFF : Nat) + 4 > 0x4000 :=
  ⟨rfl, rfl, rfl, rfl, by norm_num, by norm_num⟩

/-- C8 (code bug): the size-class value is OR'd into the chip ID without the
`<< 8` shift, clobbering the low byte: an accepted 8 MiB image yields chip ID
0xC7 (low byte ≠ 0xC2, upper bytes 0) instead of the specified 0x7C2; a
256 MiB image yields 0xFF instead of 0xFFC2. Only sizes whose class value is
0 (e.g. 128 KiB, 1 MiB) match the specification. -/
theorem claim_C8_chip_id_code_bug :
    chipIdOf 0x800000 = 0xC7 ∧ chipIdOf 0x800000 ≠ 0x7C2 ∧
    chipIdOf 0x800000 &&& 0xFF ≠ 0xC2 ∧
    chipIdOf 0x20000 = 0xC2 ∧ chipIdOf 0x100000 = 0xC2 ∧ chipIdOf 0x10000000 = 0xFF := by
  refine ⟨by decide, by decide, by decide, by decide, by decide, by decide⟩

/-! ### C7: icon palette -/

theorem paletteColor_lt (raw : Nat) : paletteColor raw < 2 ^ 32 := by
  unfold paletteColor
  refine Nat.or_lt_two_pow (Nat.or_lt_two_pow (by norm_num) ?_) ?_
  · rw [Nat.shiftLeft_eq]
    have h1 : (raw <<< 1) &&& 0x3E ≤ 0x3E := Nat.and_le_right
    have h2 : (raw <<< 4) &&& 0x3E00 ≤ 0x3E00 := Nat.and_le_right
    have h3 : (raw <<< 7) &&& 0x3E0000 ≤ 0x3E0000 := Nat.and_le_right
    have h4 : ((raw <<< 1) &&& 0x3E) ||| ((raw <<< 4) &&& 0x3E00) |||
        ((raw <<< 7) &&& 0x3E0000) < 2 ^ 24 :=
      Nat.or_lt_two_pow (Nat.or_lt_two_pow (by omega) (by omega)) (by omega)
    have h5 : (2 : Nat) ^ 2 = 4 := by norm_num
    rw [h5]
    have h6 : (2 : Nat) ^ 24 = 16777216 := by norm_num
    rw [h6] at h4
    have h7 : (2 : Nat) ^ 32 = 4294967296 := by norm_num
    rw [h7]
    omega
  · exact lt_of_le_of_lt (Nat.and_le_right) (by norm_num)

theorem codePaletteColor_lt (raw : Nat) : codePaletteColor raw < 2 ^ 32 := by
  unfold codePaletteColor
  have hch : ∀ x : Nat, ((x &&& 0x1F) <<< 3) ||| ((x &&& 0x1F) >>> 3) < 2 ^ 8 := by
    intro x
    have hf : x &&& 0x1F ≤ 0x1F := Nat.and_le_right
    have hr : (x &&& 0x1F) >>> 3 ≤ x &&& 0x1F := by
      rw [Nat.shiftRight_eq_div_pow]
      exact Nat.div_le_self _ _
    refine Nat.or_lt_two_pow ?_ ?_
    · rw [Nat.shiftLeft_eq]
      have h5 : (2 : Nat) ^ 3 = 8 := by norm_num
      rw [h5]
      have h7 : (2 : Nat) ^ 8 = 256 := by norm_num
      rw [h7]
      omega
    · exact lt_of_le_of_lt (le_trans hr hf) (by norm_num)
  have hg := hch (raw >>> 5)
  have hb := hch (raw >>> 10)
  have hr := hch raw
  refine Nat.or_lt_two_pow (Nat.or_lt_two_pow (Nat.or_lt_two_pow (by norm_num)
    (lt_of_lt_of_le hr (by norm_num))) ?_) ?_
  · rw [Nat.shiftLeft_eq]
    have h5 : (2 : Nat) ^ 8 = 256 := by norm_num
    rw [h5] at hg ⊢
    have h7 : (2 : Nat) ^ 32 = 4294967296 := by norm_num
    rw [h7]
    omega
  · rw [Nat.shiftLeft_eq]
    have h5 : (2 : Nat) ^ 8 = 256 := by norm_num
    have h6 : (2 : Nat) ^ 16 = 65536 := by norm_num
    rw [h5] at hb
    rw [h6]
    have h7 : (2 : Nat) ^ 32 = 4294967296 := by norm_num
    rw [h7]
    omega

set_option maxHeartbeats 1000000 in
theorem paletteColor_eq_code (raw : Nat) : paletteColor raw = codePaletteColor raw := by
  apply Nat.eq_of_testBit_eq
  intro i
  rcases Nat.lt_or_ge i 32 with hi | hi
  · interval_cases i <;>
      simp only [paletteColor, codePaletteColor, Nat.testBit_or, Nat.testBit_and,
        Nat.testBit_shiftLeft, Nat.testBit_shiftRight] <;>
      norm_num [Nat.testBit_to_div_mod]
  · rw [Nat.testBit_lt_two_pow (lt_of_lt_of_le (paletteColor_lt raw)
        (Nat.pow_le_pow_right (by norm_num) hi)),
      Nat.testBit_lt_two_pow (lt_of_lt_of_le (codePaletteColor_lt raw)
        (Nat.pow_le_pow_right (by norm_num) hi))]

/-- C7 (amended): in icon decoding, every palette entry with index 1..15 is
built from its 16-bit BGR555 value by expanding each 5-bit channel as
`c8 = (c5 << 3) | (c5 >> 3)` (the code's 6-bit intermediate expansion — not
the claimed `c5 >> 2`) and packing `0xFF << 24 | R | G << 8 | B << 16`;
palette index 0 maps to 0x00000000; decoding produces a pixel buffer exactly
when `offset + 0x240 ≤ len`. -/
theorem claim_C7_icon_palette :
    (∀ raw, raw < 0x10000 → paletteColor raw = codePaletteColor raw) ∧
    (∀ icon_data : Nat → Nat, iconPalette icon_data 0 = 0) ∧
    (∀ (i : Nat) (icon_data : Nat → Nat), 1 ≤ i →
      iconPalette icon_data i = paletteColor (readLe16 icon_data (0x200 ||| (i <<< 1)))) ∧
    (∀ (off : Nat) (c : Contents), decode_to_rgba8 off c = none ↔ off + 0x240 > c.len) := by
  refine ⟨fun raw _ => paletteColor_eq_code raw, ?_, ?_, ?_⟩
  · intro icon_data
    simp [iconPalette]
  · intro i icon_data hi
    unfold iconPalette
    rw [if_neg (by omega)]
  · intro off c
    unfold decode_to_rgba8
    split
    case isTrue h => exact ⟨fun _ => h, fun _ => rfl⟩
    case isFalse h => exact ⟨fun hc => absurd hc (by simp), fun hc => absurd hc h⟩

theorem claim_C7_witness :
    (7 : Nat) < 0x10000 ∧ paletteColor 7 = codePaletteColor 7 ∧
    iconPalette iconContents.data 0 = 0 ∧
    (1 : Nat) ≤ 1 ∧
    iconPalette iconContents.data 1 =
      paletteColor (readLe16 iconContents.data (0x200 ||| (1 <<< 1))) ∧
    (decode_to_rgba8 0 iconContents = none ↔ 0 + 0x240 > iconContents.len) :=
  ⟨by norm_num, claim_C7_icon_palette.1 7 (by norm_num), claim_C7_icon_palette.2.1 _,
    by norm_num, claim_C7_icon_palette.2.2.1 1 iconContents.data (by norm_num),
    claim_C7_icon_palette.2.2.2 0 iconContents⟩

set_option maxRecDepth 40000 in
/-- C7 counterexample: at the concrete contents `iconContents`, pixel (0, 0)
has palette index 1, whose raw BGR555 value is 7 (red = 7): the decoded pixel
is 0xFF000038 (the code's `c5 >> 3` expansion), not the 0xFF000039 the
claimed formula `(c5 << 3) | (c5 >> 2)` produces. -/
theorem claim_C7_counterexample :
    (decode_to_rgba8 0 iconContents).map (fun p => p 0) = some 0xFF000038 ∧
    claimPaletteColor 7 = 0xFF000039 ∧ (0xFF000038 : Nat) ≠ 0xFF000039 :=
  ⟨rfl, by decide, by decide⟩

end DsSlotRom
